import Mathlib

/-!
Verification development for the Research_CPU repository: a shallow embedding
of (a) the configurable two-pass assembler (src/assembler.py) and (b) the
Pascal front-end (src/pascal_compiler/lexer.py, semantic_analyzer.py),
with theorems settling the specification claims.

Modelling conventions:
* Python strings are modelled as `List Char`; `str.strip` / `str.split` /
  `str.replace` / slicing are translated operation by operation.
* Python dicts (insertion ordered, update-in-place) are association lists
  with `updateAssoc` / `assocFind`.
* Fallible code returns `Except String _`.  A `sys.exit` and an uncaught
  Python exception both become `Except.error`; diagnostics that the code
  merely prints (and then continues past) are accumulated in a `diags`
  field of the state instead.
* Machine integers do not occur; Python ints are `Nat` / `Int`.
-/

/-! ## Generic association lists (Python dict semantics) -/

/-- Python `d[k] = v`: update in place if the key exists (keeping its
position), else append at the end. -/
def updateAssoc {α β : Type} [DecidableEq α] : List (α × β) → α → β → List (α × β)
  | [], k, v => [(k, v)]
  | (k2, v2) :: t, k, v =>
    if k2 = k then (k, v) :: t else (k2, v2) :: updateAssoc t k v

/-- Python `d.get(k)` / `k in d`: first (unique) binding of the key. -/
def assocFind {α β : Type} [DecidableEq α] : List (α × β) → α → Option β
  | [], _ => none
  | (k2, v) :: t, k => if k2 = k then some v else assocFind t k

/-! ## Python string operations on `List Char` -/

/-- Python whitespace for `str.strip()` / `str.split()`. -/
def pyIsSpace (c : Char) : Bool :=
  c = ' ' || c = '\t' || c = '\n' || c = '\r' || c = '\x0b' || c = '\x0c'

/-- Python `str.strip()`: drop whitespace at both ends. -/
def pyStrip (l : List Char) : List Char :=
  ((l.dropWhile pyIsSpace).reverse.dropWhile pyIsSpace).reverse

/-- Fuel-based worker for `splitWs`: every round consumes at least one
character, so `l.length + 1` rounds always finish the job (structural
recursion on the fuel keeps the function kernel-reducible). -/
def splitWsF : Nat → List Char → List (List Char)
  | 0, _ => []
  | fuel + 1, l =>
    match l.dropWhile pyIsSpace with
    | [] => []
    | c :: t =>
      ((c :: t).takeWhile (fun d => !pyIsSpace d)) ::
        splitWsF fuel ((c :: t).dropWhile (fun d => !pyIsSpace d))

/-- Python `str.split()` with no argument: split on runs of whitespace,
dropping empty pieces. -/
def splitWs (l : List Char) : List (List Char) :=
  splitWsF (l.length + 1) l

/-- `pattern.isPrefixOf line` written out, mirroring Python `str.startswith`. -/
def listStartsWith : List Char → List Char → Bool
  | [], _ => true
  | _ :: _, [] => false
  | p :: ps, c :: cs => p = c && listStartsWith ps cs

/-- Fuel-based worker for `replaceAll`: every round consumes at least one
character, so fuel `l.length` suffices. -/
def replaceAllF (key val : List Char) : Nat → List Char → List Char
  | _, [] => []
  | 0, l => l
  | fuel + 1, c :: rest =>
    if key ≠ [] ∧ listStartsWith key (c :: rest) = true then
      val ++ replaceAllF key val fuel ((c :: rest).drop key.length)
    else
      c :: replaceAllF key val fuel rest

/-- Python `str.replace(key, val)`: replace every non-overlapping occurrence,
left to right.  (The assembler only ever calls this with non-empty keys,
which come from `str.split()` tokens; an empty key leaves the line as is.) -/
def replaceAll (key val : List Char) (l : List Char) : List Char :=
  replaceAllF key val l.length l

/-- Python `str.upper()` on the characters the assembler meets (ASCII). -/
def listToUpper (l : List Char) : List Char := l.map Char.toUpper

/-- Python `s[-1] == c` test used for `parts[0].endswith(':')`. -/
def listEndsWithChar (l : List Char) (c : Char) : Bool :=
  l.getLast? = some c

/-- Python `str.strip('"')` used on include file names. -/
def stripQuotes (l : List Char) : List Char :=
  ((l.dropWhile (fun c => c = '"')).reverse.dropWhile (fun c => c = '"')).reverse

/-! ## Binary bit-strings (Python `format(v, '0Nb')`) -/

/-- Fuel-based worker producing the little-endian binary digits of `n`
(empty for 0); `n` itself is always enough fuel since the argument halves. -/
def natBinLEF : Nat → Nat → List Bool
  | _, 0 => []
  | 0, _ + 1 => []
  | fuel + 1, n + 1 => decide ((n + 1) % 2 = 1) :: natBinLEF fuel ((n + 1) / 2)

/-- Little-endian binary digits of a natural number (empty for 0). -/
def natBinLE (n : Nat) : List Bool := natBinLEF n n

/-- Value of a little-endian bit list. -/
def leVal : List Bool → Nat
  | [] => 0
  | b :: bs => (if b then 1 else 0) + 2 * leVal bs

/-- Python `format(n, 'b')` for `n : Nat`: big-endian digits, `"0"` for zero. -/
def natBinStr (n : Nat) : List Char :=
  if n = 0 then ['0']
  else ((natBinLE n).reverse).map (fun b => if b then '1' else '0')

/-- Left-pad with `'0'` to width `w` (never truncates). -/
def padZeros (w : Nat) (s : List Char) : List Char :=
  List.replicate (w - s.length) '0' ++ s

/-- Python `format(v, f'0{w}b')` for `v : Int`: for negative values the sign
comes first and the zero padding counts it towards the width. -/
def pyFormatBin (v : Int) (w : Nat) : List Char :=
  if v < 0 then '-' :: padZeros (w - 1) (natBinStr (-v).toNat)
  else padZeros w (natBinStr v.toNat)

/-- `pyFormatBin` specialised to naturals (labels, addresses, `ord`). -/
def pyFormatBinNat (n : Nat) (w : Nat) : List Char :=
  padZeros w (natBinStr n)

/-- Value of a big-endian `'0'`/`'1'` string (how the writer and any reader
of the emitted field decode it). -/
def binValue (s : List Char) : Nat :=
  s.foldl (fun acc c => 2 * acc + (if c = '1' then 1 else 0)) 0

/-- Python `str.zfill(32)`: pad on the left with zeros, keeping a leading
sign character in front. -/
def zfillPy (w : Nat) (s : List Char) : List Char :=
  match s with
  | '-' :: t => '-' :: padZeros (w - 1) t
  | _ => padZeros w s

/-! ## Python numeric literal parsing -/

/-- Python `str.isdigit()` on the ASCII operands the assembler meets. -/
def listIsDigits (l : List Char) : Bool :=
  !l.isEmpty && l.all Char.isDigit

/-- Decimal digit list to `Nat`. -/
def digitsVal (l : List Char) : Nat :=
  l.foldl (fun acc c => 10 * acc + (c.toNat - '0'.toNat)) 0

/-- Python `int(s)`: optional sign, then decimal digits (`none` models the
`ValueError` for anything else; exotic forms such as underscores or inner
whitespace, which never appear in assembly operands, are not modelled). -/
def parseDecInt (l : List Char) : Option Int :=
  match l with
  | '-' :: t => if listIsDigits t then some (-(digitsVal t : Int)) else none
  | '+' :: t => if listIsDigits t then some (digitsVal t : Int) else none
  | _ => if listIsDigits l then some (digitsVal l : Int) else none

def isHexDigit (c : Char) : Bool :=
  c.isDigit || ('a' ≤ c && c ≤ 'f') || ('A' ≤ c && c ≤ 'F')

def hexDigitVal (c : Char) : Nat :=
  if c.isDigit then c.toNat - '0'.toNat
  else if 'a' ≤ c && c ≤ 'f' then c.toNat - 'a'.toNat + 10
  else c.toNat - 'A'.toNat + 10

/-- Python `int(s, 16)` on the non-negative literals the assembler meets:
an optional `0x`/`0X` marker followed by hex digits. -/
def parseHexNat (l : List Char) : Option Nat :=
  let body :=
    match l with
    | '0' :: 'x' :: t => t
    | '0' :: 'X' :: t => t
    | _ => l
  if !body.isEmpty && body.all isHexDigit then
    some (body.foldl (fun acc c => 16 * acc + hexDigitVal c) 0)
  else none

/-! ## Assembler data model (src/assembler.py) -/

/-- Python `operand.replace(",", "")`. -/
def removeCommas (l : List Char) : List Char :=
  replaceAll [','] [] l

/-- One instruction descriptor from the ISA JSON.  `operandTypes` entries are
the raw strings of the JSON (`"register"`, `"immediate"`, ...); `fieldSizes`
is the `rN -> bit width` mapping; `bitwiseOpcode` is
`instr['bitwise_description']['opcode']` (the flat `instr['opcode']` entry is
read into a local variable by the second pass but never used, so it is not
modelled). -/
structure InstrInfo where
  operandCount : Nat
  operandTypes : List (List Char)
  fieldSizes : List (List Char × Nat)
  bitwiseOpcode : List Char
deriving DecidableEq, Repr

/-- Loaded configuration: register name (without `%`) to bit-string literal,
and mnemonic to instruction descriptor. -/
structure AsmConfig where
  registers : List (List Char × List Char)
  instructions : List (List Char × InstrInfo)
deriving DecidableEq, Repr

/-- A label table entry: `labels[name] = current_address` for code labels,
`labels[name] = (current_address, value)` for data labels. -/
inductive LabelVal where
  | code (addr : Nat)
  | data (addr : Nat) (value : List Char)
deriving DecidableEq, Repr

/-- Python f-string `f"r{i+1}"`. -/
def fieldNameChars (i : Nat) : List Char :=
  'r' :: (toString (i + 1)).toList

/-- `instr_info['field_sizes'].get(f"r{i+1}", dflt)`. -/
def fieldWidth (info : InstrInfo) (i : Nat) (dflt : Nat) : Nat :=
  (assocFind info.fieldSizes (fieldNameChars i)).getD dflt

def registerChars : List Char := "register".toList
def immediateChars : List Char := "immediate".toList
def memoryChars : List Char := "memory".toList
def addressChars : List Char := "address".toList
def portChars : List Char := "port".toList
def interruptChars : List Char := "interrupt".toList
def orgChars : List Char := ".org".toList
def hexMarkChars : List Char := "0x".toList

/-- The single-quote character, `"'"` in the Python source. -/
def squote : Char := Char.ofNat 39

/-! ### First pass (`Assembler.parse_line_first_pass`) -/

structure FPState where
  currentAddress : Nat
  labels : List (List Char × LabelVal)
  staticSegment : List (List Char × List Char × Nat)
deriving DecidableEq, Repr

def dataTypeDirectives : List (List Char) := ["db".toList, "dw".toList, "dd".toList]

/-- `Assembler.parse_line_first_pass`: collect labels and advance the address
cursor.  An uncaught Python exception (bad hex after `.org`) is
`Except.error`. -/
def parseLineFirstPass (asm : AsmConfig) (st : FPState) (line : List Char) :
    Except String FPState :=
  match splitWs (pyStrip line) with
  | [] => .ok st
  | p0 :: prest =>
    if listEndsWithChar p0 ':' then
      -- label definition: record the bare identifier at the current address
      .ok { st with labels := updateAssoc st.labels (p0.dropLast) (.code st.currentAddress) }
    else if (p0 :: prest).length > 1 &&
        (dataTypeDirectives.contains p0 || p0 = orgChars) then
      if listStartsWith orgChars p0 then
        match prest with
        | p1 :: _ =>
          match parseHexNat p1 with
          | some v => .ok { st with currentAddress := v * 16 }
          | none => .error "ValueError: invalid literal for int with base 16"
        | [] => .error "IndexError: list index out of range"
      else
        match prest with
        | p1 :: _ =>
          -- the key stored is the directive token itself (`db`/`dw`/`dd`)
          .ok { st with
            labels := updateAssoc st.labels p0 (.data st.currentAddress p1),
            staticSegment := st.staticSegment ++ [(p0, p1, st.currentAddress)],
            currentAddress := st.currentAddress + 4 }
        | [] => .error "IndexError: list index out of range"
    else
      match assocFind asm.instructions (listToUpper p0) with
      | some info =>
        .ok { st with
          currentAddress := st.currentAddress + (info.fieldSizes.map Prod.snd).sum / 8 }
      | none => .ok st

/-- `Assembler.first_pass`: reset the cursor and fold over the lines. -/
def firstPassLines (asm : AsmConfig) (lines : List (List Char)) :
    Except String FPState :=
  let go : FPState → List (List Char) → Except String FPState :=
    fun st ls => ls.foldlM (fun s l => parseLineFirstPass asm s l) st
  go { currentAddress := 0, labels := [], staticSegment := [] } lines

/-! ### Second pass (`Assembler.parse_line_second_pass`) -/

structure SPState where
  currentAddress : Nat
  textSegment : List (List Char × List Char)
  diags : List String
deriving DecidableEq, Repr

/-- Result of encoding one operand: `inl msg` models a printed error (the
line is then abandoned), `inr bits` the operand bit-string. -/
def encodeOperand (asm : AsmConfig) (labels : List (List Char × LabelVal))
    (info : InstrInfo) (i : Nat) (rawOp : List Char) :
    Except String (Sum String (List Char)) :=
  let op := removeCommas rawOp
  match info.operandTypes.get? i with
  | none => .error "IndexError: list index out of range"
  | some otype =>
    if otype = registerChars then
      -- strip the leading '%' (the first character, whatever it is)
      let rname := removeCommas (op.drop 1)
      match assocFind asm.registers rname with
      | some bits => .ok (.inr bits)
      | none => .ok (.inl ("Error: Unknown register " ++ String.mk rname))
    else if otype = immediateChars then
      let w := fieldWidth info i 8
      if op.length = 3 && op.get? 0 = some squote && op.get? 2 = some squote then
        match op.get? 1 with
        | some c => .ok (.inr (pyFormatBinNat c.toNat w))
        | none => .error "IndexError: list index out of range"
      else if listStartsWith hexMarkChars op then
        match parseHexNat op with
        | some v => .ok (.inr (pyFormatBinNat v w))
        | none => .error "ValueError: invalid literal for int with base 16"
      else
        match parseDecInt op with
        | some v => .ok (.inr (pyFormatBin v w))
        | none => .error "ValueError: invalid literal for int with base 10"
    else if otype = memoryChars then
      let w := fieldWidth info i 16
      match assocFind labels op with
      | some (.code a) => .ok (.inr (pyFormatBinNat a w))
      | some (.data _ _) => .error "TypeError: unsupported format string passed to tuple"
      | none =>
        if listIsDigits op then .ok (.inr (pyFormatBinNat (digitsVal op) w))
        else .ok (.inl ("Error: Undefined label " ++ String.mk op))
    else if otype = addressChars then
      let w := fieldWidth info i 16
      match assocFind labels op with
      | some (.code a) => .ok (.inr (pyFormatBinNat a w))
      | some (.data _ _) => .error "TypeError: unsupported format string passed to tuple"
      | none => .ok (.inl ("Error: Undefined label " ++ String.mk op))
    else if otype = portChars then
      let w := fieldWidth info i 8
      if listStartsWith hexMarkChars op then
        match parseHexNat op with
        | some v => .ok (.inr (pyFormatBinNat v w))
        | none => .error "ValueError: invalid literal for int with base 16"
      else
        match parseDecInt op with
        | some v => .ok (.inr (pyFormatBin v w))
        | none => .error "ValueError: invalid literal for int with base 10"
    else if otype = interruptChars then
      let w := fieldWidth info i 8
      if listStartsWith hexMarkChars op then
        match parseHexNat op with
        | some v => .ok (.inr (pyFormatBinNat v w))
        | none => .error "ValueError: invalid literal for int with base 16"
      else
        match parseDecInt op with
        | some v => .ok (.inr (pyFormatBin v w))
        | none => .error "ValueError: invalid literal for int with base 10"
    else
      .ok (.inl ("Error: Unsupported operand type " ++ String.mk otype))

/-- The operand loop of the second pass, beginning at operand index `k`:
stops at the first printed error, propagates crashes. -/
def encodeOperandsFrom (asm : AsmConfig) (labels : List (List Char × LabelVal))
    (info : InstrInfo) (k : Nat) :
    List (List Char) → Except String (Sum String (List (List Char)))
  | [] => .ok (.inr [])
  | op :: rest =>
    match encodeOperand asm labels info k op with
    | .error e => .error e
    | .ok (.inl msg) => .ok (.inl msg)
    | .ok (.inr bits) =>
      match encodeOperandsFrom asm labels info (k + 1) rest with
      | .error e => .error e
      | .ok (.inl msg) => .ok (.inl msg)
      | .ok (.inr bl) => .ok (.inr (bits :: bl))

/-- `Assembler.parse_line_second_pass`: emit the machine word for one line.
Printed errors append to `diags` and leave address and text segment
untouched; unknown mnemonics are skipped silently (the `if mnemonic in
self.instructions` has no else branch). -/
def parseLineSecondPass (asm : AsmConfig) (labels : List (List Char × LabelVal))
    (st : SPState) (line : List Char) : Except String SPState :=
  match splitWs (pyStrip line) with
  | [] => .ok st
  | p0 :: prest =>
    if listEndsWithChar p0 ':' then .ok st
    else if listStartsWith orgChars line then
      match splitWs line with
      | _ :: p1 :: _ =>
        match parseHexNat p1 with
        | some v => .ok { st with currentAddress := v * 16 }
        | none => .error "ValueError: invalid literal for int with base 16"
      | _ => .error "IndexError: list index out of range"
    else
      let mnemonic := listToUpper p0
      match assocFind asm.instructions mnemonic with
      | none => .ok st
      | some info =>
        let operands := prest
        if operands.length ≠ info.operandCount then
          .ok { st with diags := st.diags ++
            ["Error: Incorrect number of operands for " ++ String.mk mnemonic] }
        else
          match encodeOperandsFrom asm labels info 0 operands with
          | .error e => .error e
          | .ok (.inl msg) => .ok { st with diags := st.diags ++ [msg] }
          | .ok (.inr bl) =>
            let bitwiseInstr := info.bitwiseOpcode ++ bl.flatten
            let bitwiseAddr := pyFormatBinNat st.currentAddress 32
            .ok { st with
              currentAddress := st.currentAddress + 4,
              textSegment := st.textSegment ++ [(zfillPy 32 bitwiseInstr, bitwiseAddr)] }

/-- `Assembler.second_pass`: reset text segment and cursor, fold the lines. -/
def secondPassLines (asm : AsmConfig) (labels : List (List Char × LabelVal))
    (st : SPState) (lines : List (List Char)) : Except String SPState :=
  lines.foldlM (fun s l => parseLineSecondPass asm labels s l) st

/-- `Assembler.assemble` after a successful file read: first pass then second
pass over the preprocessed lines. -/
def assemblerRun (asm : AsmConfig) (lines : List (List Char)) :
    Except String (FPState × SPState) :=
  match firstPassLines asm lines with
  | .error e => .error e
  | .ok fp =>
    match secondPassLines asm fp.labels
        { currentAddress := 0, textSegment := [], diags := [] } lines with
    | .error e => .error e
    | .ok sp => .ok (fp, sp)

/-- Exit status of `main` once the configuration and input files load: the
code has no failure flag, so a completed run exits 0 no matter how many
second-pass diagnostics were printed; only a fatal `sys.exit`/uncaught
exception yields 1. -/
def mainExitCode (asm : AsmConfig) (lines : List (List Char)) : Nat :=
  match assemblerRun asm lines with
  | .ok _ => 0
  | .error _ => 1

/-! ## Assembler preprocessor (`Assembler.preprocess`) -/

def includeDirChars : List Char := "#include".toList
def ifdefChars : List Char := ".ifdef".toList
def ifndefChars : List Char := ".ifndef".toList
def elseChars : List Char := ".else".toList
def endifChars : List Char := ".endif".toList
def defineChars : List Char := ".define".toList

/-- `line.split(';')[0]`: everything before the first `;`. -/
def stripComment (l : List Char) : List Char :=
  l.takeWhile (fun c => c ≠ ';')

/-- `line.split(';')[0].strip()`. -/
def cleanLine (l : List Char) : List Char :=
  pyStrip (stripComment l)

/-- Preprocessor state: the `defines` dict, the conditional stack (top at the
end, as Python `append`/`[-1]`/`pop()`), the `processing` emit flag, the
`include_stack` of raw included lines, and the emitted output. -/
structure PreState where
  defines : List (List Char × List Char)
  condStack : List Bool
  processing : Bool
  includeStack : List (List Char)
  output : List (List Char)
deriving DecidableEq, Repr

/-- `for key, value in self.defines.items(): line = line.replace(key, value)`. -/
def applyDefines (defs : List (List Char × List Char)) (line : List Char) : List Char :=
  defs.foldl (fun l kv => replaceAll kv.1 kv.2 l) line

/-- The main loop of `Assembler.preprocess`.  `fs` models the file system
for `#include` (`readlines` content, raw).  Fatal `sys.exit` paths and
uncaught exceptions (tuple unpacking of `line.split()`) are `Except.error`. -/
def preprocessGo (fs : List Char → Option (List (List Char))) :
    PreState → List (List Char) → Except String PreState
  | st, [] => .ok st
  | st, raw :: rest =>
    let line := cleanLine raw
    if line = [] then preprocessGo fs st rest
    else if listStartsWith includeDirChars line then
      match splitWs line with
      | _ :: f :: _ =>
        match fs (stripQuotes f) with
        | some content =>
          preprocessGo fs { st with includeStack := st.includeStack ++ content } rest
        | none => .error "Error: Included file not found."
      | _ => .error "IndexError: list index out of range"
    else if listStartsWith ifdefChars line then
      match splitWs line with
      | [_, key] =>
        let cond := (assocFind st.defines key).isSome
        preprocessGo fs { st with
          condStack := st.condStack ++ [cond],
          processing := st.processing && cond } rest
      | _ => .error "ValueError: unpacking line.split()"
    else if listStartsWith ifndefChars line then
      match splitWs line with
      | [_, key] =>
        let cond := !(assocFind st.defines key).isSome
        preprocessGo fs { st with
          condStack := st.condStack ++ [cond],
          processing := st.processing && cond } rest
      | _ => .error "ValueError: unpacking line.split()"
    else if listStartsWith elseChars line then
      match st.condStack.getLast? with
      | none => .error "Error: .else without matching .ifdef or .ifndef"
      | some top => preprocessGo fs { st with processing := !top } rest
    else if listStartsWith endifChars line then
      if st.condStack.isEmpty then
        .error "Error: .endif without matching .ifdef or .ifndef"
      else
        -- the bug documented in the design notes: after popping, the emit
        -- flag is reset to True instead of the conjunction of the rest
        preprocessGo fs { st with condStack := st.condStack.dropLast, processing := true } rest
    else if !st.processing then preprocessGo fs st rest
    else if listStartsWith defineChars line then
      match splitWs line with
      | [_, key, value] =>
        preprocessGo fs { st with defines := updateAssoc st.defines key value } rest
      | _ => .error "ValueError: unpacking line.split()"
    else
      preprocessGo fs { st with output := st.output ++ [applyDefines st.defines line] } rest

/-- `Assembler.preprocess` on a fresh `Assembler` (empty `defines`): the raw
`include_stack` lines are prepended to the emitted lines at the end. -/
def preprocess (fs : List Char → Option (List (List Char)))
    (lines : List (List Char)) : Except String (List (List Char)) :=
  match preprocessGo fs
      { defines := [], condStack := [], processing := true,
        includeStack := [], output := [] } lines with
  | .error e => .error e
  | .ok st => .ok (st.includeStack ++ st.output)

/-! ## Pascal lexer (src/pascal_compiler/lexer.py) -/

/-- Regex `\w` (ASCII sources): letters, digits, underscore. -/
def isWordChar (c : Char) : Bool :=
  c.isAlpha || c.isDigit || c = '_'

def lbrace : Char := Char.ofNat 123
def rbrace : Char := Char.ofNat 125

def pascalKeywords : List (List Char) :=
  ["AND", "ARRAY", "BEGIN", "CASE", "CONST", "DIV", "DO", "DOWNTO", "ELSE",
   "END", "FILE", "FOR", "FUNCTION", "GOTO", "IF", "IN", "LABEL", "MOD",
   "NIL", "NOT", "OF", "OR", "PACKED", "PROCEDURE", "PROGRAM", "RECORD",
   "REPEAT", "SET", "THEN", "TO", "TYPE", "UNTIL", "VAR", "WHILE",
   "WITH"].map String.toList

def pascalBooleans : List (List Char) := ["TRUE".toList, "FALSE".toList]

/-- Non-greedy scan of `(*...*)` comment bodies (`.*?\*\)`, where `.` does
not match a newline): the text up to and including the first `*)`. -/
def scanStarComment : List Char → Option (List Char)
  | '*' :: ')' :: _ => some ['*', ')']
  | '\n' :: _ => none
  | [] => none
  | c :: rest =>
    match scanStarComment rest with
    | some t => some (c :: t)
    | none => none

/-- A word-boundary match of one whole word out of `words` at this position:
`\b(W1|...|Wn)\b` succeeds exactly when the previous character is not a word
character and the maximal word-character run here is one of the words. -/
def matchWholeWord (words : List (List Char)) (prev : Option Char)
    (l : List Char) : Option (List Char) :=
  let prevOk := match prev with
    | none => true
    | some p => !isWordChar p
  let word := l.takeWhile isWordChar
  if prevOk && words.contains word then some word else none

/-- First match of `TOKEN_SPEC` at this position: the token type name and
the matched text.  Tried in the exact source order. -/
def matchSpec (prev : Option Char) (l : List Char) : Option (String × List Char) :=
  -- REAL: \d+\.\d+
  let d1 := l.takeWhile Char.isDigit
  let realMatch : Option (List Char) :=
    if d1.isEmpty then none
    else match l.drop d1.length with
      | '.' :: t2 =>
        let d2 := t2.takeWhile Char.isDigit
        if d2.isEmpty then none else some (d1 ++ '.' :: d2)
      | _ => none
  match realMatch with
  | some m => some ("REAL", m)
  | none =>
  if !d1.isEmpty then some ("INTEGER", d1)
  else if listStartsWith [':', '='] l then some ("ASSIGN", [':', '='])
  else if listStartsWith [';'] l then some ("SEMICOLON", [';'])
  else if listStartsWith [':'] l then some ("COLON", [':'])
  else if listStartsWith [','] l then some ("COMMA", [','])
  else if listStartsWith ['.'] l then some ("DOT", ['.'])
  else if listStartsWith ['('] l then
    -- LPAREN precedes COMMENT in TOKEN_SPEC, so a '(' always lexes as
    -- LPAREN and the `(*...*)` comment alternative is unreachable
    some ("LPAREN", ['('])
  else if listStartsWith [')'] l then some ("RPAREN", [')'])
  else if listStartsWith ['['] l then some ("LBRACKET", ['['])
  else if listStartsWith [']'] l then some ("RBRACKET", [']'])
  else if listStartsWith ['+'] l then some ("PLUS", ['+'])
  else if listStartsWith ['-'] l then some ("MINUS", ['-'])
  else if listStartsWith ['*'] l then some ("MUL", ['*'])
  else if listStartsWith ['/'] l then some ("DIV", ['/'])
  else if listStartsWith ['<', '='] l then some ("LTE", ['<', '='])
  else if listStartsWith ['>', '='] l then some ("GTE", ['>', '='])
  else if listStartsWith ['='] l then some ("EQ", ['='])
  else if listStartsWith ['<', '>'] l then some ("NEQ", ['<', '>'])
  else if listStartsWith ['<'] l then some ("LT", ['<'])
  else if listStartsWith ['>'] l then some ("GT", ['>'])
  else match matchWholeWord pascalKeywords prev l with
  | some m => some ("KEYWORD", m)
  | none =>
  match matchWholeWord pascalBooleans prev l with
  | some m => some ("BOOLEAN", m)
  | none =>
  match l with
  | c :: t =>
    if c = squote then
      let body := t.takeWhile (fun d => d ≠ squote)
      match t.drop body.length with
      | c2 :: _ =>
        if c2 = squote then some ("STRING", squote :: body ++ [squote]) else idOrRest prev l
      | [] => idOrRest prev l
    else idOrRest prev l
  | [] => none
where
  /-- The tail of the pattern list: ID, COMMENT, NEWLINE, SKIP, MISMATCH. -/
  idOrRest (prev : Option Char) (l : List Char) : Option (String × List Char) :=
    let prevOk := match prev with
      | none => true
      | some p => !isWordChar p
    match l with
    | [] => none
    | c :: t =>
      if prevOk && (c.isAlpha || c = '_') then
        some ("ID", l.takeWhile isWordChar)
      else if c = lbrace then
        let body := t.takeWhile (fun d => d ≠ rbrace)
        match t.drop body.length with
        | c2 :: _ => if c2 = rbrace then some ("COMMENT", c :: body ++ [c2]) else mismatchOrNl l
        | [] => mismatchOrNl l
      else if c = '(' && listStartsWith ['*'] t then
        match scanStarComment t with
        | some inner => some ("COMMENT", c :: inner)
        | none => mismatchOrNl l
      else mismatchOrNl l
  mismatchOrNl (l : List Char) : Option (String × List Char) :=
    match l with
    | [] => none
    | '\n' :: _ => some ("NEWLINE", ['\n'])
    | ' ' :: _ => some ("SKIP", l.takeWhile (fun c => c = ' ' || c = '\t'))
    | '\t' :: _ => some ("SKIP", l.takeWhile (fun c => c = ' ' || c = '\t'))
    | c :: _ => some ("MISMATCH", [c])

/-- Token values: `int` for INTEGER, `float` (modelled as `Rat`) for REAL,
strings otherwise. -/
inductive TokValue where
  | s (v : String)
  | i (v : Int)
  | r (v : Rat)
deriving DecidableEq, Repr

/-- `Token(type, value, line, column)`. -/
structure Token where
  type : String
  value : TokValue
  line : Nat
  column : Nat
deriving DecidableEq, Repr

/-- `float(d1 + "." + d2)` for the decimal literals matched by REAL. -/
def ratOfDigits (d1 d2 : List Char) : Rat :=
  (digitsVal d1 : Rat) + (digitsVal d2 : Rat) / ((10 : Rat) ^ d2.length)

/-- `Lexer.update_position`: advance line/column over the matched text. -/
def updatePosition (ln col : Nat) (value : List Char) : Nat × Nat :=
  let pieces := value.foldr
    (fun c acc => if c = '\n' then [] :: acc else (c :: acc.headD []) :: acc.tail) [[]]
  if pieces.length > 1 then (ln + (pieces.length - 1), (pieces.getLastD []).length + 1)
  else (ln, col + value.length)

/-- The post-match transformation of one token: the final token type and
value (`INTEGER`/`REAL` conversions, STRING quote stripping, KEYWORD and
BOOLEAN reclassification). -/
def mkToken (ttype : String) (matched : List Char) (ln col : Nat) : Token :=
  if ttype = "INTEGER" then
    { type := ttype, value := .i (digitsVal matched), line := ln, column := col }
  else if ttype = "REAL" then
    let d1 := matched.takeWhile Char.isDigit
    let d2 := (matched.drop (d1.length + 1))
    { type := ttype, value := .r (ratOfDigits d1 d2), line := ln, column := col }
  else if ttype = "STRING" then
    { type := ttype, value := .s (String.mk ((matched.drop 1).dropLast)),
      line := ln, column := col }
  else if ttype = "KEYWORD" then
    { type := String.mk (listToUpper matched), value := .s (String.mk matched),
      line := ln, column := col }
  else
    { type := ttype, value := .s (String.mk matched), line := ln, column := col }

/-- The `while position < len(code)` loop of `Lexer.tokenize`.  `prev` is the
character just before the current position (for the `\b` boundaries).  Every
pattern matches at least one character (recorded by `max 1` and by the fuel,
which keeps the recursion structural).  The `raise LexerError` branch is
kept as the `.error` case. -/
def tokenizeGo (fuel : Nat) (toks : List Token) (ln col : Nat) (prev : Option Char) :
    List Char → Except String (List Token)
  | [] => .ok toks
  | c :: rest =>
    match fuel with
    | 0 => .ok toks
    | fuel + 1 =>
    match matchSpec prev (c :: rest) with
    | none =>
      .error ("Lexer error at line " ++ toString ln ++ ", column " ++ toString col ++
        ": Unexpected character: " ++ String.mk [c])
    | some (ttype, matched) =>
      let remaining := (c :: rest).drop (matched.length.max 1)
      if ttype = "COMMENT" || ttype = "SKIP" then
        let pos2 := updatePosition ln col matched
        tokenizeGo fuel toks pos2.1 pos2.2 (matched.getLast? <|> prev) remaining
      else if ttype = "NEWLINE" then
        tokenizeGo fuel toks (ln + 1) 1 (some '\n') remaining
      else
        let tok := mkToken ttype matched ln col
        let pos2 := updatePosition ln col matched
        tokenizeGo fuel (toks ++ [tok]) pos2.1 pos2.2 (matched.getLast? <|> prev) remaining

/-- `tokenize(code)`: run the lexer from line 1, column 1 (every match
consumes at least one character, so fuel `code.length` always suffices). -/
def tokenize (code : List Char) : Except String (List Token) :=
  tokenizeGo code.length [] 1 1 none code

/-! ## Pascal semantic analyzer (src/pascal_compiler/semantic_analyzer.py)

The embedding covers the fragment of the AST the claims exercise: simple and
array types, numeric/string/boolean literals, variables, binary and unary
operators, assignment, compound statements, if/while, variable declarations
and procedure declarations.  The analyzer threads the current
`ScopedSymbolTable` explicitly; `CompilerError` and uncaught Python
exceptions both become `Except.error` with the message text. -/

namespace Pascal

/-- `Num.value`: a Python `int` or `float`. -/
inductive NumVal where
  | intV (v : Int)
  | realV (v : Rat)
deriving DecidableEq, Repr

/-- Python `==` on `Num` values (`1 == 1.0` is true). -/
def numValEq : NumVal → NumVal → Bool
  | .intV a, .intV b => a = b
  | .realV a, .realV b => a = b
  | .intV a, .realV b => (a : Rat) = b
  | .realV a, .intV b => a = (b : Rat)

/-- `SimpleType` (carrying `token.value`) and `ArrayType` (element type and
the `Num` bounds).  These nodes double as the type values the visitor
returns, exactly as in the source where `visit_SimpleType` returns the node
itself. -/
inductive TypeNode where
  | simple (value : String)
  | array (elementType : TypeNode) (startVal : NumVal) (endVal : NumVal)
deriving DecidableEq, Repr

/-- `type.value` where it exists: `ArrayType` has no `value` attribute, so
reading it raises `AttributeError` (modelled by `none`). -/
def typeValueOf : TypeNode → Option String
  | .simple v => some v
  | .array _ _ _ => none

def pyAttrError : String := "AttributeError: object has no attribute value"

/-- Expression nodes. -/
inductive Expr where
  | num (value : NumVal)
  | strLit (value : String)
  | boolLit (value : Bool)
  | var (name : String)
  | binOp (left : Expr) (op : String) (right : Expr)
  | unaryOp (op : String) (e : Expr)
deriving DecidableEq, Repr

/-- Statement nodes. -/
inductive Stmt where
  | assign (left : Expr) (right : Expr)
  | compound (stmts : List Stmt)
  | ifS (condition : Expr) (thenStmt : Stmt) (elseStmt : Option Stmt)
  | whileS (condition : Expr) (body : Stmt)
  | noOp

mutual
/-- Declaration nodes (`VarDecl` and `Procedure`; a parameter is the
`(var_node.value, type_node)` of its `VarDecl`). -/
inductive Decl where
  | varDecl (varName : String) (typeNode : TypeNode)
  | procedureDecl (name : String) (params : List (String × TypeNode)) (block : Block)

/-- `Block(declarations, compound_statement)`. -/
inductive Block where
  | mk (declarations : List Decl) (compoundStatement : Stmt)
end

/-- `Program(name, block)`. -/
structure PascalProgram where
  name : String
  block : Block

/-- Symbols: `VariableSymbol(name, type)` and `ProcedureSymbol(name, params)`
(whose `type` attribute is Python `None`). -/
inductive Symbol where
  | variableSymbol (name : String) (type : TypeNode)
  | procedureSymbol (name : String) (params : List Symbol)

/-- `ScopedSymbolTable(symbols, scope_name, scope_level, enclosing_scope)`. -/
inductive Scope where
  | mk (symbols : List (String × Symbol)) (scopeName : String)
      (scopeLevel : Nat) (enclosingScope : Option Scope)

def Scope.symbols : Scope → List (String × Symbol)
  | .mk s _ _ _ => s

def Scope.scopeName : Scope → String
  | .mk _ n _ _ => n

def Scope.scopeLevel : Scope → Nat
  | .mk _ _ l _ => l

def Scope.enclosingScope : Scope → Option Scope
  | .mk _ _ _ e => e

/-- `ScopedSymbolTable.insert`: `self.symbols[symbol.name] = symbol`. -/
def Scope.insert (sc : Scope) (name : String) (sym : Symbol) : Scope :=
  .mk (updateAssoc sc.symbols name sym) sc.scopeName sc.scopeLevel sc.enclosingScope

/-- `lookup(name, current_scope_only=True)`. -/
def Scope.lookupLocal (sc : Scope) (name : String) : Option Symbol :=
  assocFind sc.symbols name

/-- `lookup(name)`: this table, then the enclosing chain. -/
def Scope.lookup : Scope → String → Option Symbol
  | .mk syms _ _ enc, name =>
    match assocFind syms name with
    | some s => some s
    | none =>
      match enc with
      | some p => Scope.lookup p name
      | none => none

/-- `visit_SimpleType` / `visit_ArrayType` return the node itself. -/
def visitTypeNode (t : TypeNode) : TypeNode := t

/-- `SemanticAnalyzer._check_type_compatibility`. -/
def checkTypeCompatibility : TypeNode → TypeNode → Bool
  | .simple v1, .simple v2 =>
    if (v1 = "REAL" && v2 = "INTEGER") || (v1 = "INTEGER" && v2 = "REAL") then true
    else v1 = v2
  | .array e1 s1 n1, .array e2 s2 n2 =>
    checkTypeCompatibility e1 e2 && numValEq s1 s2 && numValEq n1 n2
  | _, _ => false

/-- `visit_` on expressions.  The result is `some` type node, or `none` for
the paths where the Python visitor falls through and returns `None`
(`visit_UnaryOp` with an operator other than PLUS/MINUS/NOT). -/
def visitExpr (sc : Scope) : Expr → Except String (Option TypeNode)
  | .num v =>
    match v with
    | .intV _ => .ok (some (.simple "INTEGER"))
    | .realV _ => .ok (some (.simple "REAL"))
  | .strLit _ => .ok (some (.simple "STRING"))
  | .boolLit _ => .ok (some (.simple "BOOLEAN"))
  | .var name =>
    match Scope.lookup sc name with
    | none => .error ("Symbol(identifier) not found " ++ name)
    | some (.procedureSymbol _ _) =>
      -- `var_symbol.type is None` for a ProcedureSymbol
      .error ("Type information missing for variable " ++ name)
    | some (.variableSymbol _ t) => .ok (some t)
  | .binOp left op right =>
    match visitExpr sc left with
    | .error e => .error e
    | .ok ltOpt =>
    match visitExpr sc right with
    | .error e => .error e
    | .ok rtOpt =>
    match ltOpt with
    | none => .error ("Unable to determine type for left operand of " ++ op ++ " operator")
    | some lt =>
    match rtOpt with
    | none => .error ("Unable to determine type for right operand of " ++ op ++ " operator")
    | some rt =>
    if op = "INDEX" then
      match lt with
      | .simple lv => .error ("Indexing operation not supported for type " ++ lv)
      | .array elemT _ _ =>
        match rt with
        | .simple rv =>
          if rv = "INTEGER" then .ok (some elemT)
          else .error ("Array index must be of type INTEGER, got " ++ rv)
        | .array _ _ _ => .error pyAttrError
    else if op = "PLUS" || op = "MINUS" || op = "MUL" || op = "DIV" then
      match typeValueOf lt, typeValueOf rt with
      | some lv, some rv =>
        if !((lv = "INTEGER" || lv = "REAL") && (rv = "INTEGER" || rv = "REAL")) then
          .error ("Invalid types for arithmetic operator " ++ op ++ ": " ++ lv ++ " and " ++ rv)
        else if lv = "REAL" || rv = "REAL" then .ok (some (.simple "REAL"))
        else .ok (some (.simple "INTEGER"))
      | _, _ => .error pyAttrError
    else if op = "EQ" || op = "NEQ" || op = "LT" || op = "LTE" || op = "GT" || op = "GTE" then
      match typeValueOf lt, typeValueOf rt with
      | some lv, some rv =>
        let okKinds := fun v => v = "INTEGER" || v = "REAL" || v = "STRING" || v = "BOOLEAN"
        if !(okKinds lv && okKinds rv) then
          .error ("Invalid types for comparison operator " ++ op ++ ": " ++ lv ++ " and " ++ rv)
        else if lv ≠ rv && !((lv = "INTEGER" || lv = "REAL") && (rv = "INTEGER" || rv = "REAL")) then
          .error ("Incompatible types for comparison operator " ++ op ++ ": " ++ lv ++ " and " ++ rv)
        else .ok (some (.simple "BOOLEAN"))
      | _, _ => .error pyAttrError
    else if op = "AND" || op = "OR" then
      match typeValueOf lt, typeValueOf rt with
      | some lv, some rv =>
        if lv ≠ "BOOLEAN" || rv ≠ "BOOLEAN" then
          .error ("Invalid types for logical operator " ++ op ++ ": " ++ lv ++ " and " ++ rv)
        else .ok (some (.simple "BOOLEAN"))
      | _, _ => .error pyAttrError
    else .error ("Unsupported binary operator: " ++ op)
  | .unaryOp op e =>
    match visitExpr sc e with
    | .error err => .error err
    | .ok etOpt =>
    if op = "PLUS" || op = "MINUS" then
      match etOpt with
      | some (.simple v) =>
        if v = "INTEGER" || v = "REAL" then .ok (some (.simple v))
        else .error ("Invalid type for unary operator " ++ op ++ ": " ++ v)
      | some (.array _ _ _) => .error pyAttrError
      | none => .error pyAttrError
    else if op = "NOT" then
      match etOpt with
      | some (.simple v) =>
        if v = "BOOLEAN" then .ok (some (.simple v))
        else .error ("Invalid type for unary operator " ++ op ++ ": " ++ v)
      | some (.array _ _ _) => .error pyAttrError
      | none => .error pyAttrError
    else .ok none

/-- `visit_Assign` minus the dead `VariableSymbol` branch (expression visits
never return a symbol): RHS first, then LHS; a `SimpleType` left side goes
through the compatibility check, anything else hits the
"Invalid left-hand side" error. -/
def visitAssign (sc : Scope) (left right : Expr) : Except String Unit :=
  match visitExpr sc right with
  | .error e => .error e
  | .ok rtOpt =>
  match visitExpr sc left with
  | .error e => .error e
  | .ok ltOpt =>
  match ltOpt with
  | some (.simple lv) =>
    match rtOpt with
    | some rt =>
      if checkTypeCompatibility (.simple lv) rt then .ok ()
      else
        match typeValueOf rt with
        | some rv => .error ("Incompatible types in assignment: " ++ lv ++ " and " ++ rv)
        | none => .error pyAttrError
    | none =>
      -- `_check_type_compatibility(lt, None)` is False, then the error
      -- message formats `None.value`: AttributeError
      .error pyAttrError
  | some (.array _ _ _) => .error "Invalid left-hand side in assignment: ArrayType"
  | none => .error "Invalid left-hand side in assignment: NoneType"

/-- Statement visitor. -/
def visitStmt (sc : Scope) : Stmt → Except String Unit
  | .assign l r => visitAssign sc l r
  | .compound stmts => goList stmts
  | .ifS c t e =>
    (match visitExpr sc c with
     | .error err => .error err
     | .ok (some (.simple v)) =>
       if v = "BOOLEAN" then .ok ()
       else .error "Condition in IF statement must be of type BOOLEAN"
     | .ok _ => .error "Condition in IF statement must be of type BOOLEAN") >>= fun _ =>
    visitStmt sc t >>= fun _ =>
    match e with
    | some es => visitStmt sc es
    | none => .ok ()
  | .whileS c b =>
    (match visitExpr sc c with
     | .error err => .error err
     | .ok (some (.simple v)) =>
       if v = "BOOLEAN" then .ok ()
       else .error "Condition in WHILE statement must be of type BOOLEAN"
     | .ok _ => .error "Condition in WHILE statement must be of type BOOLEAN") >>= fun _ =>
    visitStmt sc b
  | .noOp => .ok ()
where
  goList : List Stmt → Except String Unit
    | [] => .ok ()
    | s :: rest =>
      match visitStmt sc s with
      | .error e => .error e
      | .ok _ => goList rest

/-- The parameter `VariableSymbol`s of a procedure, in order (in the source
they are appended to the shared `proc_symbol.params` object while being
inserted; type visits are pure, so they are precomputed here). -/
def paramSymbols (params : List (String × TypeNode)) : List Symbol :=
  params.map (fun p => .variableSymbol p.1 (visitTypeNode p.2))

/-- The parameter insertions into the fresh procedure scope: one
`Scope.insert` per parameter, in order, Python-dict overwrite semantics. -/
def insertParams (params : List (String × TypeNode)) :
    List (String × Symbol) → List (String × Symbol) :=
  fun syms => params.foldl
    (fun acc p => updateAssoc acc p.1 (.variableSymbol p.1 (visitTypeNode p.2))) syms

/-- The scope in which a procedure body is analyzed: a fresh table at
level+1 whose enclosing scope is the current scope with the
`ProcedureSymbol` already inserted. -/
def procedureScope (sc : Scope) (name : String) (params : List (String × TypeNode)) : Scope :=
  .mk (insertParams params []) name (sc.scopeLevel + 1)
    (some (Scope.insert sc name (.procedureSymbol name (paramSymbols params))))

mutual
/-- `visit_VarDecl` / `visit_Procedure`: returns the updated current scope. -/
def visitDecl (sc : Scope) : Decl → Except String Scope
  | .varDecl varName typeNode =>
    let typeSymbol := visitTypeNode typeNode
    if (Scope.lookupLocal sc varName).isSome then
      .error ("Duplicate identifier " ++ varName ++ " found")
    else
      .ok (Scope.insert sc varName (.variableSymbol varName typeSymbol))
  | .procedureDecl name params block =>
    if (Scope.lookupLocal sc name).isSome then
      .error ("Duplicate identifier " ++ name ++ " found")
    else
      -- no duplicate check is performed while inserting the parameters
      match visitBlock (procedureScope sc name params) block with
      | .error e => .error e
      | .ok _ =>
        -- `self.current_scope = self.current_scope.enclosing_scope`
        .ok (Scope.insert sc name (.procedureSymbol name (paramSymbols params)))

def visitDeclList (sc : Scope) : List Decl → Except String Scope
  | [] => .ok sc
  | d :: rest =>
    match visitDecl sc d with
    | .error e => .error e
    | .ok sc2 => visitDeclList sc2 rest

/-- `visit_Block`: declarations, then the compound statement; the resulting
scope is the (mutated) current scope. -/
def visitBlock (sc : Scope) : Block → Except String Scope
  | .mk decls comp =>
    match visitDeclList sc decls with
    | .error e => .error e
    | .ok sc2 =>
      match visitStmt sc2 comp with
      | .error e => .error e
      | .ok _ => .ok sc2
end

/-- `visit_Program` / `analyze`: analyze the block in a fresh global scope. -/
def analyzeProgram (p : PascalProgram) : Except String Unit :=
  match visitBlock (.mk [] "global" 1 none) p.block with
  | .error e => .error e
  | .ok _ => .ok ()

end Pascal


/-! ## Claim-specific concrete data and predicates -/

/-- The declared width of operand field `rN`: the `field_sizes` entry, with
the per-kind defaults of the second pass (16 for memory/address, 8
otherwise).  For a register operand the encoder never reads `field_sizes`;
in a well-formed descriptor (every `rN` declared) this is still the declared
width. -/
def declWidth (info : InstrInfo) (i : Nat) : Nat :=
  match info.operandTypes.get? i with
  | none => 0
  | some t =>
    if t = memoryChars || t = addressChars then fieldWidth info i 16
    else fieldWidth info i 8

/-- The caveat of the width invariant, checked operationally: whenever the
operand encodes successfully, its bit-string has exactly the declared field
width (register strings of the right length, values that are zero-padded
but not wider than the field). -/
def fitsOperand (asm : AsmConfig) (labels : List (List Char × LabelVal))
    (info : InstrInfo) (i : Nat) (rawOp : List Char) : Bool :=
  match encodeOperand asm labels info i rawOp with
  | .ok (.inr b) => b.length = declWidth info i
  | _ => true
/-- The S2 scenario descriptor: `JMP` with a single 28-bit `address` operand
and opcode `0001`. -/
def c1InfoW : InstrInfo :=
  { operandCount := 1, operandTypes := [addressChars],
    fieldSizes := [("r1".toList, 28)], bitwiseOpcode := "0001".toList }

def c1AsmW : AsmConfig :=
  { registers := [], instructions := [("JMP".toList, c1InfoW)] }
/-- C2 witness descriptor: opcode `0001` (4 bits) plus one 28-bit immediate
field: 4 + 28 = 32. -/
def c2InfoW : InstrInfo :=
  { operandCount := 1, operandTypes := [immediateChars],
    fieldSizes := [("r1".toList, 28)], bitwiseOpcode := "0001".toList }

def c2AsmW : AsmConfig :=
  { registers := [], instructions := [("FOO".toList, c2InfoW)] }
/-- C4 counterexample ISA: `MOV` takes one register operand. -/
def c4InfoW : InstrInfo :=
  { operandCount := 1, operandTypes := [registerChars],
    fieldSizes := [("r1".toList, 28)], bitwiseOpcode := "0001".toList }

def c4AsmW : AsmConfig :=
  { registers := [("ax".toList, "0001".toList)],
    instructions := [("MOV".toList, c4InfoW)] }
/-- C7 witness data: outer scope with `y : INTEGER`, procedure
`p(x : INTEGER)` with a local `z : REAL` whose body uses the outer `y`. -/
def c7ScW : Pascal.Scope :=
  .mk [("y", .variableSymbol "y" (.simple "INTEGER"))] "global" 1 none

def c7ParamsW : List (String × Pascal.TypeNode) := [("x", .simple "INTEGER")]

def c7BlockW : Pascal.Block :=
  .mk [.varDecl "z" (.simple "REAL")] (.compound [.assign (.var "z") (.var "y")])
def c10ScW : Pascal.Scope := .mk [] "global" 1 none

def c10ParamsW : List (String × Pascal.TypeNode) :=
  [("x", .simple "INTEGER"), ("x", .simple "REAL")]

def c10BlockW : Pascal.Block := .mk [] (.compound [.noOp])
/-- A line as the preprocessor emits it when no define is recorded: already
clean (comment-free and stripped), non-empty, and not a directive. -/
def goodLine (e : List Char) : Prop :=
  cleanLine e = e ∧ e ≠ [] ∧
  listStartsWith includeDirChars e = false ∧
  listStartsWith ifdefChars e = false ∧
  listStartsWith ifndefChars e = false ∧
  listStartsWith elseChars e = false ∧
  listStartsWith endifChars e = false ∧
  listStartsWith defineChars e = false

/-! ## Lemmas: association lists -/

theorem assocFind_updateAssoc_self {α β : Type} [DecidableEq α]
    (l : List (α × β)) (k : α) (v : β) :
    assocFind (updateAssoc l k v) k = some v := by
  induction l with
  | nil => simp [updateAssoc, assocFind]
  | cons h t ih =>
    obtain ⟨k2, v2⟩ := h
    by_cases hk : k2 = k
    · simp [updateAssoc, hk, assocFind]
    · simp [updateAssoc, hk, assocFind, ih]

theorem assocFind_updateAssoc_ne {α β : Type} [DecidableEq α]
    (l : List (α × β)) (k k' : α) (v : β) (hne : k' ≠ k) :
    assocFind (updateAssoc l k v) k' = assocFind l k' := by
  induction l with
  | nil =>
    simp only [updateAssoc, assocFind]
    rw [if_neg (fun h => hne h.symm)]
  | cons h t ih =>
    obtain ⟨k2, v2⟩ := h
    by_cases hk : k2 = k
    · subst hk
      simp only [updateAssoc, if_pos rfl, assocFind]
      rw [if_neg (fun h => hne h.symm), if_neg (fun h => hne h.symm)]
    · simp only [updateAssoc, hk, if_false, assocFind]
      by_cases hk2 : k2 = k'
      · simp [hk2]
      · simp [hk2, ih]

/-! ## Lemmas: binary strings round-trip -/

theorem leVal_natBinLEF : ∀ (fuel n : Nat), n ≤ fuel → leVal (natBinLEF fuel n) = n := by
  intro fuel
  induction fuel with
  | zero =>
    intro n hn
    interval_cases n
    simp [natBinLEF, leVal]
  | succ f ih =>
    intro n hn
    match n with
    | 0 => simp [natBinLEF, leVal]
    | m + 1 =>
      have hdiv : (m + 1) / 2 ≤ f := by omega
      simp only [natBinLEF, leVal, ih _ hdiv]
      rcases Nat.mod_two_eq_zero_or_one (m + 1) with h2 | h2 <;>
        · simp [h2]
          omega

theorem leVal_natBinLE (n : Nat) : leVal (natBinLE n) = n :=
  leVal_natBinLEF n n le_rfl

theorem binValue_append_singleton (xs : List Char) (c : Char) :
    binValue (xs ++ [c]) = 2 * binValue xs + (if c = '1' then 1 else 0) := by
  simp [binValue, List.foldl_append]

theorem binValue_rev_map (bs : List Bool) :
    binValue ((bs.map (fun b => if b then '1' else '0')).reverse) = leVal bs := by
  induction bs with
  | nil => simp [binValue, leVal]
  | cons b t ih =>
    simp only [List.map_cons, List.reverse_cons, leVal]
    rw [binValue_append_singleton, ih]
    cases b <;> simp <;> omega

theorem binValue_natBinStr (n : Nat) : binValue (natBinStr n) = n := by
  by_cases h : n = 0
  · subst h; simp [natBinStr, binValue]
  · rw [natBinStr]
    simp only [h, if_false]
    rw [List.map_reverse, binValue_rev_map, leVal_natBinLE]

theorem binValue_replicate_zero (k : Nat) :
    binValue (List.replicate k '0') = 0 := by
  induction k with
  | zero => simp [binValue]
  | succ m ih =>
    simp only [binValue, List.replicate_succ, List.foldl_cons]
    simpa [binValue] using ih

theorem binValue_padZeros (w : Nat) (s : List Char) :
    binValue (padZeros w s) = binValue s := by
  unfold padZeros binValue
  rw [List.foldl_append]
  have h0 : List.foldl (fun acc c => 2 * acc + (if c = '1' then 1 else 0)) 0
      (List.replicate (w - s.length) '0') = 0 := binValue_replicate_zero _
  rw [h0]

theorem binValue_pyFormatBinNat (n w : Nat) :
    binValue (pyFormatBinNat n w) = n := by
  unfold pyFormatBinNat
  rw [binValue_padZeros, binValue_natBinStr]

theorem natBinLEF_length_le : ∀ (fuel n w : Nat), n < 2 ^ w →
    (natBinLEF fuel n).length ≤ w := by
  intro fuel
  induction fuel with
  | zero =>
    intro n w _
    match n with
    | 0 => simp [natBinLEF]
    | _ + 1 => simp [natBinLEF]
  | succ f ih =>
    intro n w hn
    match n with
    | 0 => simp [natBinLEF]
    | m + 1 =>
      have hw : 0 < w := by
        by_contra h0
        have : w = 0 := by omega
        subst this
        simp at hn
      have hdiv : (m + 1) / 2 < 2 ^ (w - 1) := by
        apply Nat.div_lt_of_lt_mul
        have hp : (2 : Nat) ^ w = 2 ^ (w - 1) * 2 := by
          rw [← Nat.pow_succ]
          congr 1
          omega
        omega
      have := ih ((m + 1) / 2) (w - 1) hdiv
      simp only [natBinLEF, List.length_cons]
      omega

theorem natBinLE_length_le (w : Nat) : ∀ n, n < 2 ^ w → (natBinLE n).length ≤ w :=
  fun n hn => natBinLEF_length_le n n w hn

theorem natBinStr_length_le (n w : Nat) (hw : 0 < w) (hn : n < 2 ^ w) :
    (natBinStr n).length ≤ w := by
  by_cases h : n = 0
  · subst h; simpa [natBinStr] using hw
  · rw [natBinStr]
    simp only [h, if_false, List.length_map, List.length_reverse]
    exact natBinLE_length_le w n hn

theorem padZeros_length_of_le (w : Nat) (s : List Char) (h : s.length ≤ w) :
    (padZeros w s).length = w := by
  simp [padZeros]
  omega

theorem pyFormatBinNat_length (n w : Nat) (hw : 0 < w) (hn : n < 2 ^ w) :
    (pyFormatBinNat n w).length = w :=
  padZeros_length_of_le w _ (natBinStr_length_le n w hw hn)

theorem padZeros_eq_self (w : Nat) (s : List Char) (h : w ≤ s.length) :
    padZeros w s = s := by
  simp [padZeros, Nat.sub_eq_zero_of_le h]

theorem zfillPy_eq_self (s : List Char) (h : 32 ≤ s.length) :
    zfillPy 32 s = s := by
  match s with
  | [] => simp at h
  | c :: t =>
    by_cases hc : c = '-'
    · subst hc
      show '-' :: padZeros 31 t = '-' :: t
      rw [padZeros_eq_self]
      simpa using h
    · have : zfillPy 32 (c :: t) = padZeros 32 (c :: t) := by
        unfold zfillPy
        split
        · rename_i heq; cases heq; exact absurd rfl hc
        · rfl
      rw [this, padZeros_eq_self _ _ h]

/-! ## Lemmas: the second-pass operand loop -/

theorem encodeOperandsFrom_get (asm : AsmConfig) (labels : List (List Char × LabelVal))
    (info : InstrInfo) :
    ∀ (ops : List (List Char)) (k : Nat) (bl : List (List Char)),
    encodeOperandsFrom asm labels info k ops = .ok (.inr bl) →
    ∀ (j : Nat) (op : List Char), ops.get? j = some op →
    ∃ b, encodeOperand asm labels info (k + j) op = .ok (.inr b) ∧ bl.get? j = some b := by
  intro ops
  induction ops with
  | nil => intro k bl _ j op hop; simp at hop
  | cons o rest ih =>
    intro k bl henc j op hop
    rw [encodeOperandsFrom] at henc
    cases h1 : encodeOperand asm labels info k o with
    | error e => rw [h1] at henc; exact absurd henc (by simp)
    | ok v1 =>
      cases v1 with
      | inl msg => rw [h1] at henc; exact absurd henc (by simp)
      | inr bits =>
        rw [h1] at henc
        cases h2 : encodeOperandsFrom asm labels info (k + 1) rest with
        | error e => rw [h2] at henc; exact absurd henc (by simp)
        | ok v2 =>
          cases v2 with
          | inl msg => rw [h2] at henc; exact absurd henc (by simp)
          | inr bl2 =>
            rw [h2] at henc
            simp only [Except.ok.injEq, Sum.inr.injEq] at henc
            subst henc
            cases j with
            | zero =>
              simp only [List.get?_cons_zero, Option.some.injEq] at hop
              subst hop
              exact ⟨bits, by simpa using h1, rfl⟩
            | succ m =>
              simp only [List.get?_cons_succ] at hop
              obtain ⟨b, hb, hget⟩ := ih (k + 1) bl2 h2 m op hop
              refine ⟨b, ?_, by simpa using hget⟩
              have : k + 1 + m = k + (m + 1) := by omega
              rwa [this] at hb

theorem encodeOperand_address (asm : AsmConfig) (labels : List (List Char × LabelVal))
    (info : InstrInfo) (i : Nat) (rawOp L : List Char) (A w : Nat)
    (hty : info.operandTypes.get? i = some addressChars)
    (hL : removeCommas rawOp = L)
    (hlab : assocFind labels L = some (.code A))
    (hw : fieldWidth info i 16 = w) :
    encodeOperand asm labels info i rawOp = .ok (.inr (pyFormatBinNat A w)) := by
  unfold encodeOperand
  rw [hty]
  simp only [hL]
  rw [if_neg (show ¬ addressChars = registerChars by decide),
      if_neg (show ¬ addressChars = immediateChars by decide),
      if_neg (show ¬ addressChars = memoryChars by decide)]
  simp only [if_true, hlab, hw]

/-- C1: if label `L` is recorded at address `A` by the first pass and then
referenced as an `address`-kind operand in the second pass, the emitted
operand field is exactly the binary string of `A`, padded to the declared
width `field_sizes[rN]`: decoding it yields `A` again, and when `A` fits the
field the emitted field has exactly the declared width. -/
theorem c1_label_roundtrip
    (asm : AsmConfig) (lines : List (List Char)) (fp : FPState)
    (info : InstrInfo) (ops bl : List (List Char)) (j : Nat)
    (rawOp L : List Char) (A w : Nat)
    (hfp : firstPassLines asm lines = .ok fp)
    (henc : encodeOperandsFrom asm fp.labels info 0 ops = .ok (.inr bl))
    (hop : ops.get? j = some rawOp)
    (hL : removeCommas rawOp = L)
    (hlab : assocFind fp.labels L = some (.code A))
    (hty : info.operandTypes.get? j = some addressChars)
    (hw : fieldWidth info j 16 = w) :
    bl.get? j = some (pyFormatBinNat A w) ∧
    binValue (pyFormatBinNat A w) = A ∧
    (0 < w → A < 2 ^ w → (pyFormatBinNat A w).length = w) := by
  obtain ⟨b, hb, hget⟩ := encodeOperandsFrom_get asm fp.labels info ops 0 bl henc j rawOp hop
  have haddr := encodeOperand_address asm fp.labels info (0 + j) rawOp L A w
    (by simpa using hty) hL hlab (by simpa using hw)
  rw [haddr] at hb
  simp only [Except.ok.injEq, Sum.inr.injEq] at hb
  subst hb
  exact ⟨hget, binValue_pyFormatBinNat A w, fun hw0 hA => pyFormatBinNat_length A w hw0 hA⟩

/-- C1 witness: the S2 program `loop:` / `JMP loop` puts `loop` at address 0
and the emitted 28-bit field decodes to 0. -/
theorem c1_label_roundtrip_witness :
    binValue (pyFormatBinNat 0 28) = 0 ∧ (pyFormatBinNat 0 28).length = 28 := by
  have h := c1_label_roundtrip c1AsmW ["loop:".toList, "JMP loop".toList]
    { currentAddress := 3, labels := [("loop".toList, .code 0)], staticSegment := [] }
    c1InfoW ["loop".toList] [pyFormatBinNat 0 28] 0 "loop".toList "loop".toList 0 28
    rfl rfl rfl rfl rfl rfl rfl
  exact ⟨h.2.1, h.2.2 (by norm_num) (by norm_num)⟩

/-! ## C2: encoding width -/

theorem encodeOperandsFrom_flatten_length (asm : AsmConfig)
    (labels : List (List Char × LabelVal)) (info : InstrInfo) :
    ∀ (ops : List (List Char)) (k : Nat) (bl : List (List Char)),
    encodeOperandsFrom asm labels info k ops = .ok (.inr bl) →
    (∀ j op, ops.get? j = some op → fitsOperand asm labels info (k + j) op = true) →
    bl.flatten.length = ((List.range ops.length).map (fun j => declWidth info (k + j))).sum := by
  intro ops
  induction ops with
  | nil =>
    intro k bl henc _
    rw [encodeOperandsFrom] at henc
    simp only [Except.ok.injEq, Sum.inr.injEq] at henc
    subst henc
    simp
  | cons o rest ih =>
    intro k bl henc hfits
    rw [encodeOperandsFrom] at henc
    cases h1 : encodeOperand asm labels info k o with
    | error e => rw [h1] at henc; exact absurd henc (by simp)
    | ok v1 =>
      cases v1 with
      | inl msg => rw [h1] at henc; exact absurd henc (by simp)
      | inr bits =>
        rw [h1] at henc
        cases h2 : encodeOperandsFrom asm labels info (k + 1) rest with
        | error e => rw [h2] at henc; exact absurd henc (by simp)
        | ok v2 =>
          cases v2 with
          | inl msg => rw [h2] at henc; exact absurd henc (by simp)
          | inr bl2 =>
            rw [h2] at henc
            simp only [Except.ok.injEq, Sum.inr.injEq] at henc
            subst henc
            have hlen : bits.length = declWidth info k := by
              have := hfits 0 o (by simp)
              rw [fitsOperand] at this
              simp only [Nat.add_zero] at this
              rw [h1] at this
              simpa using this
            have hrest := ih (k + 1) bl2 h2 (fun j op hop => by
              have := hfits (j + 1) op (by simpa using hop)
              have harith : k + (j + 1) = k + 1 + j := by omega
              rwa [harith] at this)
            show (bits :: bl2).flatten.length = _
    
            rw [List.flatten_cons, List.length_append, hlen, hrest, List.length_cons,
                List.range_succ_eq_map]
            simp only [List.map_cons, List.sum_cons, List.map_map, Nat.add_zero]
            congr 1
            congr 1
            apply List.map_congr_left
            intro x _
            simp only [Function.comp_apply]
            congr 1
            omega

/-- C2: for an ISA descriptor whose opcode width plus the sum of the declared
field widths is 32, a successfully encoded instruction line appends a
bit-string of length exactly 32 to the text segment — under the claim's own
caveat (`fitsOperand`): register bit-strings and zero-padded values must
come out at their declared field widths, since they are used verbatim and
never truncated. -/
theorem c2_encoding_width
    (asm : AsmConfig) (labels : List (List Char × LabelVal)) (info : InstrInfo)
    (st : SPState) (line p0 : List Char) (operands bl : List (List Char))
    (hsplit : splitWs (pyStrip line) = p0 :: operands)
    (hnoLabel : listEndsWithChar p0 ':' = false)
    (hnoOrg : listStartsWith orgChars line = false)
    (hinstr : assocFind asm.instructions (listToUpper p0) = some info)
    (hcount : operands.length = info.operandCount)
    (henc : encodeOperandsFrom asm labels info 0 operands = .ok (.inr bl))
    (hfits : ∀ j op, operands.get? j = some op → fitsOperand asm labels info j op = true)
    (hsum : info.bitwiseOpcode.length +
      ((List.range info.operandCount).map (fun j => declWidth info j)).sum = 32) :
    parseLineSecondPass asm labels st line = .ok
      ⟨st.currentAddress + 4,
       st.textSegment ++
         [(zfillPy 32 (info.bitwiseOpcode ++ bl.flatten),
           pyFormatBinNat st.currentAddress 32)],
       st.diags⟩ ∧
    (zfillPy 32 (info.bitwiseOpcode ++ bl.flatten)).length = 32 := by
  have hflat := encodeOperandsFrom_flatten_length asm labels info operands 0 bl henc
    (fun j op hop => by simpa using hfits j op hop)
  have hlen : (info.bitwiseOpcode ++ bl.flatten).length = 32 := by
    rw [List.length_append, hflat, ← hcount] at *
    simp only [Nat.zero_add] at *
    convert hsum using 3
  have hz : zfillPy 32 (info.bitwiseOpcode ++ bl.flatten) =
      info.bitwiseOpcode ++ bl.flatten := zfillPy_eq_self _ (le_of_eq hlen.symm)
  constructor
  · unfold parseLineSecondPass
    rw [hsplit]
    simp only [hnoLabel, hnoOrg, Bool.false_eq_true, if_false, hinstr]
    rw [if_neg (by simp [hcount])]
    rw [henc]
  · rw [hz]; exact hlen

/-- C2 witness: the line `FOO 5` under the 4+28 descriptor emits a 32-bit
word. -/
theorem c2_encoding_width_witness :
    (zfillPy 32 ("0001".toList ++ [pyFormatBin 5 28].flatten)).length = 32 := by
  have h := c2_encoding_width c2AsmW [] c2InfoW
    { currentAddress := 0, textSegment := [], diags := [] }
    "FOO 5".toList "FOO".toList ["5".toList] [pyFormatBin 5 28]
    rfl rfl rfl rfl rfl rfl
    (fun j op hop => by
      cases j with
      | zero =>
        simp only [List.get?_cons_zero, Option.some.injEq] at hop
        subst hop
        rfl
      | succ n => simp at hop)
    rfl
  exact h.2

/-! ## C3: preprocessor conditional-stack semantics -/

/-- C3: the claimed semantics fails in the code.  With no macros defined,
`NOP` sits inside an enclosing false `.ifdef X` block, yet after the inner
`.endif` the code resets `processing` to `True` instead of the conjunction
of the remaining stack, so `NOP` is emitted.  This theorem evaluates the
preprocessor at that failing input. -/
theorem c3_preprocessor_conditional_bug :
    preprocess (fun _ => none)
      ([".ifdef X", ".ifdef X", ".endif", "NOP", ".endif"].map String.toList) =
      .ok ["NOP".toList] := rfl

/-! ## C4: failed-run marking -/

/-- C4 (amended): a second-pass encoding error appends one diagnostic and
leaves address and text segment untouched, and the pass continues with the
subsequent lines; but nothing records the run as failed — a completed run
exits 0 no matter how many diagnostics accumulated. -/
theorem c4_errors_continue_but_exit_zero :
    (∀ (asm : AsmConfig) (labels : List (List Char × LabelVal)) (st : SPState)
       (line : List Char) (st' : SPState),
       parseLineSecondPass asm labels st line = .ok st' →
       st'.diags ≠ st.diags →
       st'.currentAddress = st.currentAddress ∧
       st'.textSegment = st.textSegment ∧
       (∃ msg, st'.diags = st.diags ++ [msg]) ∧
       (∀ rest, secondPassLines asm labels st (line :: rest) =
          secondPassLines asm labels st' rest)) ∧
    (∀ (asm : AsmConfig) (lines : List (List Char)) (res : FPState × SPState),
       assemblerRun asm lines = .ok res → mainExitCode asm lines = 0) := by
  constructor
  · intro asm labels st line st' hrun hdiag
    have hstep : ∀ rest, secondPassLines asm labels st (line :: rest) =
        secondPassLines asm labels st' rest := by
      intro rest
      show (line :: rest).foldlM (fun s l => parseLineSecondPass asm labels s l) st =
        rest.foldlM (fun s l => parseLineSecondPass asm labels s l) st'
      rw [List.foldlM_cons, hrun]
      rfl
    unfold parseLineSecondPass at hrun
    dsimp only at hrun
    split at hrun
    · simp only [Except.ok.injEq] at hrun; subst hrun; exact absurd rfl hdiag
    · split at hrun
      · simp only [Except.ok.injEq] at hrun; subst hrun; exact absurd rfl hdiag
      · split at hrun
        · split at hrun
          · split at hrun
            · simp only [Except.ok.injEq] at hrun; subst hrun; exact absurd rfl hdiag
            · exact absurd hrun (by simp)
          · exact absurd hrun (by simp)
        · split at hrun
          · simp only [Except.ok.injEq] at hrun; subst hrun; exact absurd rfl hdiag
          · split at hrun
            · simp only [Except.ok.injEq] at hrun; subst hrun
              exact ⟨rfl, rfl, ⟨_, rfl⟩, hstep⟩
            · split at hrun
              · exact absurd hrun (by simp)
              · simp only [Except.ok.injEq] at hrun; subst hrun
                exact ⟨rfl, rfl, ⟨_, rfl⟩, hstep⟩
              · simp only [Except.ok.injEq] at hrun; subst hrun; exact absurd rfl hdiag
  · intro asm lines res hres
    unfold mainExitCode
    rw [hres]

/-- C4 counterexample: assembling `MOV %q` (unknown register) prints a
diagnostic but the run completes and the process exits with status 0, not 1
as claimed. -/
theorem c4_exit_status_counterexample :
    (∃ fp sp, assemblerRun c4AsmW ["MOV %q".toList] = .ok (fp, sp) ∧ sp.diags ≠ []) ∧
    mainExitCode c4AsmW ["MOV %q".toList] = 0 ∧
    mainExitCode c4AsmW ["MOV %q".toList] ≠ 1 := by
  refine ⟨⟨_, _, rfl, ?_⟩, rfl, by decide⟩
  intro h
  simpa using congrArg List.length h

/-- C4 witness: the amended theorem applied to the `MOV %q` run — the error
line leaves the text segment empty, appends one diagnostic, the pass
continues with the following `NOP`-style line, and the exit code is 0. -/
theorem c4_errors_continue_but_exit_zero_witness :
    (∃ st', parseLineSecondPass c4AsmW [] ⟨0, [], []⟩ "MOV %q".toList = .ok st' ∧
      st'.currentAddress = 0 ∧ st'.textSegment = [] ∧
      (∃ msg, st'.diags = [msg])) ∧
    mainExitCode c4AsmW ["MOV %q".toList] = 0 := by
  obtain ⟨h1, h2⟩ := c4_errors_continue_but_exit_zero
  have ha := h1 c4AsmW [] ⟨0, [], []⟩ "MOV %q".toList
    ⟨0, [], ["Error: Unknown register q"]⟩ rfl (by decide)
  refine ⟨⟨_, rfl, ha.1, ha.2.1, ?_⟩, h2 c4AsmW ["MOV %q".toList] _ rfl⟩
  obtain ⟨msg, hm⟩ := ha.2.2.1
  exact ⟨msg, by simpa using hm⟩

/-! ## C5: lexer behaviour on unmatched characters -/

/-- C5: evaluating the lexer at the claimed failing input.  The final
`MISMATCH` pattern `r'.'` matches any character but a newline (which
`NEWLINE` matches), so the `raise LexerError("Unexpected character ...")`
is unreachable: `'@'` is silently emitted as a `MISMATCH` token instead of
failing with a "unexpected character" error as claimed. -/
theorem c5_mismatch_token_instead_of_error :
    tokenize "@".toList =
      .ok [{ type := "MISMATCH", value := .s "@", line := 1, column := 1 }] := rfl

/-! ## C6: assignment type compatibility -/

/-- C6 (amended): once the RHS and LHS types resolve, an assignment whose LHS
resolves to a `SimpleType` succeeds exactly when the two types are
compatible, and an incompatible pair raises the error citing both type
names; but an LHS that resolves to an `ArrayType` (whole-array assignment)
is always rejected with "Invalid left-hand side", even when the two array
types are compatible. -/
theorem c6_assign_compatibility (sc : Pascal.Scope) (l r : Pascal.Expr)
    (lt rt : Pascal.TypeNode)
    (hr : Pascal.visitExpr sc r = .ok (some rt))
    (hl : Pascal.visitExpr sc l = .ok (some lt)) :
    (∀ lv rv, lt = .simple lv → rt = .simple rv →
      (Pascal.visitAssign sc l r = .ok () ↔
        Pascal.checkTypeCompatibility lt rt = true) ∧
      (Pascal.checkTypeCompatibility lt rt = false →
        Pascal.visitAssign sc l r =
          .error ("Incompatible types in assignment: " ++ lv ++ " and " ++ rv))) ∧
    (∀ et s e, lt = .array et s e →
      Pascal.visitAssign sc l r =
        .error "Invalid left-hand side in assignment: ArrayType") := by
  constructor
  · intro lv rv hlv hrv
    subst hlv; subst hrv
    constructor
    · constructor
      · intro hok
        by_contra hc
        rw [Bool.not_eq_true] at hc
        unfold Pascal.visitAssign at hok
        rw [hr, hl] at hok
        simp only [hc, Bool.false_eq_true, if_false, Pascal.typeValueOf] at hok
        exact absurd hok (by simp)
      · intro hcompat
        unfold Pascal.visitAssign
        rw [hr, hl]
        simp only [hcompat, if_true]
    · intro hfalse
      unfold Pascal.visitAssign
      rw [hr, hl]
      simp only [hfalse, Bool.false_eq_true, if_false, Pascal.typeValueOf]
  · intro et s e harr
    subst harr
    unfold Pascal.visitAssign
    rw [hr, hl]

/-- C6 counterexample: two variables of the same (hence compatible)
`ARRAY[1..2] OF INTEGER` type; the whole-array assignment `a := b` is
compatible under the claimed rules, yet the analyzer raises
"Invalid left-hand side" instead of accepting it. -/
theorem c6_compatible_array_assign_rejected :
    Pascal.checkTypeCompatibility
      (.array (.simple "INTEGER") (.intV 1) (.intV 2))
      (.array (.simple "INTEGER") (.intV 1) (.intV 2)) = true ∧
    Pascal.analyzeProgram ⟨"T", .mk
      [.varDecl "a" (.array (.simple "INTEGER") (.intV 1) (.intV 2)),
       .varDecl "b" (.array (.simple "INTEGER") (.intV 1) (.intV 2))]
      (.compound [.assign (.var "a") (.var "b")])⟩ =
      .error "Invalid left-hand side in assignment: ArrayType" := ⟨rfl, rfl⟩

/-- C6 witness: scenario S5, `PROGRAM T; VAR b: BOOLEAN; BEGIN b := 1 + 2
END.` — the assignment errors citing BOOLEAN and INTEGER, via the amended
theorem and by full program analysis. -/
theorem c6_assign_compatibility_witness :
    Pascal.visitAssign
      (.mk [("b", .variableSymbol "b" (.simple "BOOLEAN"))] "global" 1 none)
      (.var "b") (.binOp (.num (.intV 1)) "PLUS" (.num (.intV 2))) =
      .error "Incompatible types in assignment: BOOLEAN and INTEGER" ∧
    Pascal.analyzeProgram ⟨"T", .mk [.varDecl "b" (.simple "BOOLEAN")]
      (.compound [.assign (.var "b")
        (.binOp (.num (.intV 1)) "PLUS" (.num (.intV 2)))])⟩ =
      .error "Incompatible types in assignment: BOOLEAN and INTEGER" := by
  have h := (c6_assign_compatibility
    (.mk [("b", .variableSymbol "b" (.simple "BOOLEAN"))] "global" 1 none)
    (.var "b") (.binOp (.num (.intV 1)) "PLUS" (.num (.intV 2)))
    (.simple "BOOLEAN") (.simple "INTEGER") rfl rfl).1
    "BOOLEAN" "INTEGER" rfl rfl
  exact ⟨h.2 rfl, rfl⟩

/-! ## C7: scope hygiene -/

theorem scopeLookup_mk (syms : List (String × Pascal.Symbol)) (nm : String) (lv : Nat)
    (enc : Option Pascal.Scope) (n : String) :
    Pascal.Scope.lookup (.mk syms nm lv enc) n =
      (match assocFind syms n with
       | some s => some s
       | none =>
         match enc with
         | some p => Pascal.Scope.lookup p n
         | none => none) := by
  cases enc with
  | some p => exact Pascal.Scope.lookup.eq_1 n syms nm lv p
  | none => exact Pascal.Scope.lookup.eq_2 n syms nm lv

theorem lookup_insert_ne (sc : Pascal.Scope) (name n : String) (sym : Pascal.Symbol)
    (h : n ≠ name) :
    Pascal.Scope.lookup (Pascal.Scope.insert sc name sym) n = Pascal.Scope.lookup sc n := by
  cases sc with
  | mk syms nm lv enc =>
    show Pascal.Scope.lookup (.mk (updateAssoc syms name sym) nm lv enc) n = _
    rw [scopeLookup_mk, scopeLookup_mk, assocFind_updateAssoc_ne syms name n sym h]

theorem assocFind_insertParams_not_mem (n : String)
    (params : List (String × Pascal.TypeNode)) :
    ∀ syms, ¬ n ∈ params.map Prod.fst →
    assocFind (Pascal.insertParams params syms) n = assocFind syms n := by
  induction params with
  | nil => intro syms _; rfl
  | cons p rest ih =>
    intro syms hn
    simp only [List.map_cons, List.mem_cons] at hn
    push_neg at hn
    show assocFind (Pascal.insertParams rest
      (updateAssoc syms p.1 (.variableSymbol p.1 (Pascal.visitTypeNode p.2)))) n = _
    rw [ih _ hn.2, assocFind_updateAssoc_ne _ _ _ _ hn.1]

/-- C7: after `visit_Procedure` completes, the current scope is restored to
the enclosing scope (same name, level and parent, extended only by the
procedure symbol), so any name declared inside — parameter or local —
resolves after the procedure exactly as it did before it (in particular, a
fresh inner name is no longer resolvable); inside the procedure the body
scope resolves an unshadowed outer name through the enclosing-scope chain
to the same symbol as the outer scope, while a name in the body scope's own
table (e.g. a parameter) shadows the outer chain. -/
theorem c7_scope_hygiene (sc : Pascal.Scope) (name : String)
    (params : List (String × Pascal.TypeNode)) (block : Pascal.Block)
    (sc2 : Pascal.Scope)
    (hrun : Pascal.visitDecl sc (.procedureDecl name params block) = .ok sc2) :
    (sc2.scopeName = sc.scopeName ∧ sc2.scopeLevel = sc.scopeLevel ∧
     sc2.enclosingScope = sc.enclosingScope) ∧
    (∀ n, n ≠ name → Pascal.Scope.lookup sc2 n = Pascal.Scope.lookup sc n) ∧
    (∀ n, n ≠ name → ¬ n ∈ params.map Prod.fst →
      Pascal.Scope.lookup (Pascal.procedureScope sc name params) n =
        Pascal.Scope.lookup sc n) ∧
    (∀ n s, Pascal.Scope.lookupLocal (Pascal.procedureScope sc name params) n = some s →
      Pascal.Scope.lookup (Pascal.procedureScope sc name params) n = some s) := by
  have hinv : sc2 = Pascal.Scope.insert sc name
      (.procedureSymbol name (Pascal.paramSymbols params)) := by
    unfold Pascal.visitDecl at hrun
    split at hrun
    · exact absurd hrun (by simp)
    · split at hrun
      · exact absurd hrun (by simp)
      · simp only [Except.ok.injEq] at hrun; exact hrun.symm
  subst hinv
  refine ⟨?_, ?_, ?_, ?_⟩
  · cases sc with
    | mk syms nm lv enc => exact ⟨rfl, rfl, rfl⟩
  · intro n hn
    exact lookup_insert_ne sc name n _ hn
  · intro n hn hmem
    show Pascal.Scope.lookup (.mk (Pascal.insertParams params []) name _
      (some (Pascal.Scope.insert sc name _))) n = _
    rw [scopeLookup_mk, assocFind_insertParams_not_mem n params [] hmem]
    exact lookup_insert_ne sc name n _ hn
  · intro n s hloc
    have : assocFind (Pascal.insertParams params []) n = some s := hloc
    show Pascal.Scope.lookup (.mk (Pascal.insertParams params []) name _
      (some (Pascal.Scope.insert sc name _))) n = some s
    rw [scopeLookup_mk, this]

/-- C7 witness: after analyzing `p`, neither the parameter `x` nor the local
`z` resolves from the restored scope, while inside the body scope the outer
`y` resolves through the chain and the parameter `x` resolves locally. -/
theorem c7_scope_hygiene_witness :
    Pascal.visitDecl c7ScW (.procedureDecl "p" c7ParamsW c7BlockW) = .ok
      (.mk [("y", .variableSymbol "y" (.simple "INTEGER")),
            ("p", .procedureSymbol "p" [.variableSymbol "x" (.simple "INTEGER")])]
        "global" 1 none) ∧
    Pascal.Scope.lookup
      (.mk [("y", .variableSymbol "y" (.simple "INTEGER")),
            ("p", .procedureSymbol "p" [.variableSymbol "x" (.simple "INTEGER")])]
        "global" 1 none) "x" = none ∧
    Pascal.Scope.lookup
      (.mk [("y", .variableSymbol "y" (.simple "INTEGER")),
            ("p", .procedureSymbol "p" [.variableSymbol "x" (.simple "INTEGER")])]
        "global" 1 none) "z" = none ∧
    Pascal.Scope.lookup (Pascal.procedureScope c7ScW "p" c7ParamsW) "y" =
      some (.variableSymbol "y" (.simple "INTEGER")) ∧
    Pascal.Scope.lookup (Pascal.procedureScope c7ScW "p" c7ParamsW) "x" =
      some (.variableSymbol "x" (.simple "INTEGER")) := by
  have h := c7_scope_hygiene c7ScW "p" c7ParamsW c7BlockW
    (.mk [("y", .variableSymbol "y" (.simple "INTEGER")),
          ("p", .procedureSymbol "p" [.variableSymbol "x" (.simple "INTEGER")])]
      "global" 1 none) rfl
  refine ⟨rfl, ?_, ?_, ?_, ?_⟩
  · exact (h.2.1 "x" (by decide)).trans rfl
  · exact (h.2.1 "z" (by decide)).trans rfl
  · exact (h.2.2.1 "y" (by decide) (by decide)).trans rfl
  · exact h.2.2.2 "x" (.variableSymbol "x" (.simple "INTEGER")) rfl

/-! ## C10: duplicate parameter names -/

theorem insertParams_append (l1 l2 : List (String × Pascal.TypeNode))
    (syms : List (String × Pascal.Symbol)) :
    Pascal.insertParams (l1 ++ l2) syms =
      Pascal.insertParams l2 (Pascal.insertParams l1 syms) := by
  simp [Pascal.insertParams, List.foldl_append]

theorem assocFind_insertParams_last (n : String) (T : Pascal.TypeNode)
    (ps : List (String × Pascal.TypeNode)) (hn : ¬ n ∈ ps.map Prod.fst)
    (syms : List (String × Pascal.Symbol)) :
    assocFind (Pascal.insertParams ((n, T) :: ps) syms) n =
      some (.variableSymbol n (Pascal.visitTypeNode T)) := by
  show assocFind (Pascal.insertParams ps
    (updateAssoc syms n (.variableSymbol n (Pascal.visitTypeNode T)))) n = _
  rw [assocFind_insertParams_not_mem n ps _ hn, assocFind_updateAssoc_self]

/-- C10: a duplicated formal parameter name is not rejected — the later
parameter's symbol overwrites the earlier one in the procedure scope's
table, a reference to the name in the body resolves to the last parameter's
type, and the analysis outcome of the procedure is exactly the outcome of
its body (no "Duplicate identifier" error from the parameter list). -/
theorem c10_duplicate_params (sc : Pascal.Scope) (pname : String)
    (ps1 ps2 ps3 : List (String × Pascal.TypeNode)) (n : String)
    (T1 T2 : Pascal.TypeNode) (block : Pascal.Block)
    (hn3 : ¬ n ∈ ps3.map Prod.fst) :
    Pascal.Scope.lookupLocal
      (Pascal.procedureScope sc pname (ps1 ++ (n, T1) :: ps2 ++ (n, T2) :: ps3)) n =
      some (.variableSymbol n (Pascal.visitTypeNode T2)) ∧
    Pascal.visitExpr
      (Pascal.procedureScope sc pname (ps1 ++ (n, T1) :: ps2 ++ (n, T2) :: ps3))
      (.var n) = .ok (some (Pascal.visitTypeNode T2)) ∧
    (Pascal.Scope.lookupLocal sc pname = none →
      (∀ sc3, Pascal.visitBlock (Pascal.procedureScope sc pname
          (ps1 ++ (n, T1) :: ps2 ++ (n, T2) :: ps3)) block = .ok sc3 →
        Pascal.visitDecl sc
          (.procedureDecl pname (ps1 ++ (n, T1) :: ps2 ++ (n, T2) :: ps3) block) =
          .ok (Pascal.Scope.insert sc pname (.procedureSymbol pname
            (Pascal.paramSymbols (ps1 ++ (n, T1) :: ps2 ++ (n, T2) :: ps3))))) ∧
      (∀ e, Pascal.visitBlock (Pascal.procedureScope sc pname
          (ps1 ++ (n, T1) :: ps2 ++ (n, T2) :: ps3)) block = .error e →
        Pascal.visitDecl sc
          (.procedureDecl pname (ps1 ++ (n, T1) :: ps2 ++ (n, T2) :: ps3) block) =
          .error e)) := by
  have hsplit : ps1 ++ (n, T1) :: ps2 ++ (n, T2) :: ps3 =
      (ps1 ++ (n, T1) :: ps2) ++ ((n, T2) :: ps3) := by simp
  have hfind : assocFind (Pascal.insertParams
      (ps1 ++ (n, T1) :: ps2 ++ (n, T2) :: ps3) []) n =
      some (.variableSymbol n (Pascal.visitTypeNode T2)) := by
    rw [hsplit, insertParams_append, assocFind_insertParams_last n T2 ps3 hn3]
  refine ⟨hfind, ?_, ?_⟩
  · show (match Pascal.Scope.lookup (Pascal.procedureScope sc pname _) n with
      | none => Except.error ("Symbol(identifier) not found " ++ n)
      | some (.procedureSymbol _ _) =>
        Except.error ("Type information missing for variable " ++ n)
      | some (.variableSymbol _ t) => Except.ok (some t)) = _
    unfold Pascal.procedureScope
    rw [scopeLookup_mk, hfind]
  · intro hp
    constructor
    · intro sc3 hb
      unfold Pascal.visitDecl
      rw [if_neg (by simp [hp]), hb]
    · intro e hb
      unfold Pascal.visitDecl
      rw [if_neg (by simp [hp]), hb]

/-- C10 witness: `PROCEDURE p(x: INTEGER; x: REAL)` analyzes without a
"Duplicate identifier" error; the scope table holds the REAL symbol (the
later parameter overwrote the earlier one) and `x` in the body resolves to
REAL. -/
theorem c10_duplicate_params_witness :
    Pascal.Scope.lookupLocal (Pascal.procedureScope c10ScW "p" c10ParamsW) "x" =
      some (.variableSymbol "x" (.simple "REAL")) ∧
    Pascal.visitExpr (Pascal.procedureScope c10ScW "p" c10ParamsW) (.var "x") =
      .ok (some (.simple "REAL")) ∧
    Pascal.visitDecl c10ScW (.procedureDecl "p" c10ParamsW c10BlockW) =
      .ok (.mk [("p", .procedureSymbol "p"
        [.variableSymbol "x" (.simple "INTEGER"),
         .variableSymbol "x" (.simple "REAL")])] "global" 1 none) := by
  have h := c10_duplicate_params c10ScW "p" [] [] [] "x"
    (.simple "INTEGER") (.simple "REAL") c10BlockW (by decide)
  exact ⟨h.1, h.2.1, (h.2.2 rfl).1 (Pascal.procedureScope c10ScW "p" c10ParamsW) rfl⟩

/-! ## C9: .org policy -/

theorem listStartsWith_takeWhile (p : Char → Bool) :
    ∀ l : List Char, listStartsWith (l.takeWhile p) l = true := by
  intro l
  induction l with
  | nil => rfl
  | cons c t ih =>
    by_cases hc : p c
    · simp only [List.takeWhile_cons, hc, listStartsWith]
      simpa using ih
    · simp only [List.takeWhile_cons, hc]
      rfl

theorem dropWhile_eq_self_of_pyStrip (l : List Char) (h : pyStrip l = l) :
    l.dropWhile pyIsSpace = l := by
  have h1 : List.Sublist (l.dropWhile pyIsSpace) l := List.dropWhile_sublist _
  have h2 : List.Sublist ((l.dropWhile pyIsSpace).reverse.dropWhile pyIsSpace)
      (l.dropWhile pyIsSpace).reverse := List.dropWhile_sublist _
  have hlen : l.length ≤ (l.dropWhile pyIsSpace).length := by
    have hc := congrArg List.length h
    unfold pyStrip at hc
    simp only [List.length_reverse] at hc
    have h2l := h2.length_le
    simp only [List.length_reverse] at h2l
    omega
  exact h1.eq_of_length (le_antisymm h1.length_le hlen)

theorem listStartsWith_head_of_splitWs (line t0 : List Char) (rest : List (List Char))
    (hstrip : pyStrip line = line) (hsplit : splitWs line = t0 :: rest) :
    listStartsWith t0 line = true := by
  have hdw := dropWhile_eq_self_of_pyStrip line hstrip
  match line with
  | [] =>
    exact absurd hsplit (by simp [splitWs, splitWsF])
  | c :: t =>
    have hstep : splitWs (c :: t) =
        match (c :: t).dropWhile pyIsSpace with
        | [] => []
        | c2 :: t2 =>
          ((c2 :: t2).takeWhile (fun d => !pyIsSpace d)) ::
            splitWsF ((c :: t).length + 1 - 1)
              ((c2 :: t2).dropWhile (fun d => !pyIsSpace d)) := rfl
    rw [hstep, hdw] at hsplit
    simp only [List.cons.injEq] at hsplit
    rw [← hsplit.1]
    exact listStartsWith_takeWhile _ _

/-- C9 (amended): a proper `.org HEX` line sets the address cursor to
16 times the value of the hexadecimal literal — not to the unmodified
value — and the first and the second pass apply this identical
interpretation, leaving labels, segments and diagnostics untouched. -/
theorem c9_org_scaled_but_consistent
    (asm : AsmConfig) (labels : List (List Char × LabelVal))
    (st1 : FPState) (st2 : SPState)
    (line hexTok : List Char) (ts : List (List Char)) (v : Nat)
    (hstrip : pyStrip line = line)
    (hsplit : splitWs line = orgChars :: hexTok :: ts)
    (hv : parseHexNat hexTok = some v) :
    parseLineFirstPass asm st1 line = .ok ⟨v * 16, st1.labels, st1.staticSegment⟩ ∧
    parseLineSecondPass asm labels st2 line = .ok ⟨v * 16, st2.textSegment, st2.diags⟩ := by
  have hstart : listStartsWith orgChars line = true :=
    listStartsWith_head_of_splitWs line orgChars (hexTok :: ts) hstrip hsplit
  constructor
  · unfold parseLineFirstPass
    rw [hstrip, hsplit]
    dsimp only
    rw [if_neg (by decide)]
    rw [if_pos (by simp [dataTypeDirectives])]
    rw [if_pos (by decide)]
    rw [hv]
  · unfold parseLineSecondPass
    rw [hstrip, hsplit]
    dsimp only
    rw [if_neg (by decide)]
    rw [if_pos hstart]
    rw [hv]

/-- C9 counterexample: `.org 10` sets the first-pass cursor to 256
(= 16 × 0x10), not to the unmodified value 16 as the claim requires. -/
theorem c9_org_not_unmodified :
    parseLineFirstPass ⟨[], []⟩ ⟨0, [], []⟩ ".org 10".toList = .ok ⟨256, [], []⟩ ∧
    (256 : Nat) ≠ 16 := ⟨rfl, by decide⟩

/-- C9 witness: the amended theorem at the concrete line `.org 10` in both
passes. -/
theorem c9_org_scaled_but_consistent_witness :
    parseLineFirstPass ⟨[], []⟩ ⟨7, [], []⟩ ".org 10".toList = .ok ⟨256, [], []⟩ ∧
    parseLineSecondPass ⟨[], []⟩ [] ⟨7, [], []⟩ ".org 10".toList = .ok ⟨256, [], []⟩ := by
  have h := c9_org_scaled_but_consistent ⟨[], []⟩ [] ⟨7, [], []⟩ ⟨7, [], []⟩
    ".org 10".toList "10".toList [] 16 rfl rfl rfl
  exact h

/-! ## C8: preprocessing idempotence -/

theorem dropWhile_dropWhile (p : Char → Bool) (l : List Char) :
    (l.dropWhile p).dropWhile p = l.dropWhile p := by
  induction l with
  | nil => rfl
  | cons c t ih =>
    by_cases hc : p c
    · simp [List.dropWhile_cons, hc, ih]
    · simp [List.dropWhile_cons, hc]

theorem dropWhile_head_false (p : Char → Bool) (l : List Char) (c : Char) (t : List Char)
    (h : l.dropWhile p = c :: t) : p c = false := by
  have h2 := List.head?_dropWhile_not p l
  rw [h] at h2
  simpa using h2

theorem dropWhile_eq_self_of_head (p : Char → Bool) (l : List Char)
    (h : ∀ c, l.head? = some c → p c = false) : l.dropWhile p = l := by
  cases l with
  | nil => rfl
  | cons c t => simp [List.dropWhile_cons, h c rfl]

theorem getLast?_dropWhile (p : Char → Bool) (l : List Char)
    (h : l.dropWhile p ≠ []) : (l.dropWhile p).getLast? = l.getLast? := by
  induction l with
  | nil => simp [List.dropWhile] at h
  | cons c t ih =>
    by_cases hc : p c
    · have hd : (c :: t).dropWhile p = t.dropWhile p := by simp [List.dropWhile_cons, hc]
      rw [hd] at h ⊢
      have ht : t ≠ [] := by
        intro h0
        subst h0
        simp [List.dropWhile] at h
      rw [ih h]
      cases t with
      | nil => exact absurd rfl ht
      | cons x xs => exact List.getLast?_cons_cons.symm
    · simp [List.dropWhile_cons, hc]

theorem pyStrip_idem (l : List Char) : pyStrip (pyStrip l) = pyStrip l := by
  unfold pyStrip
  by_cases hgnil : (l.dropWhile pyIsSpace).reverse.dropWhile pyIsSpace = []
  · rw [hgnil]
    simp [List.dropWhile]
  · obtain ⟨c2, t2, hft⟩ : ∃ c2 t2, l.dropWhile pyIsSpace = c2 :: t2 := by
      cases hf : l.dropWhile pyIsSpace with
      | nil => rw [hf] at hgnil; simp [List.dropWhile] at hgnil
      | cons a b => exact ⟨a, b, rfl⟩
    have hc2 : pyIsSpace c2 = false := dropWhile_head_false pyIsSpace l c2 t2 hft
    have hglast : ((l.dropWhile pyIsSpace).reverse.dropWhile pyIsSpace).getLast? = some c2 := by
      rw [getLast?_dropWhile pyIsSpace _ hgnil, List.getLast?_reverse, hft]
      rfl
    have hgrevhead : ((l.dropWhile pyIsSpace).reverse.dropWhile pyIsSpace).reverse.head? =
        some c2 := by
      rw [List.head?_reverse]
      exact hglast
    have hstep1 : ((l.dropWhile pyIsSpace).reverse.dropWhile pyIsSpace).reverse.dropWhile
        pyIsSpace = ((l.dropWhile pyIsSpace).reverse.dropWhile pyIsSpace).reverse :=
      dropWhile_eq_self_of_head pyIsSpace _ (by
        intro c hch
        rw [hgrevhead] at hch
        cases hch
        exact hc2)
    rw [hstep1, List.reverse_reverse, dropWhile_dropWhile]

theorem mem_pyStrip (l : List Char) (c : Char) (h : c ∈ pyStrip l) : c ∈ l := by
  unfold pyStrip at h
  simp only [List.mem_reverse] at h
  have h2 : c ∈ (l.dropWhile pyIsSpace).reverse := (List.dropWhile_sublist _).subset h
  simp only [List.mem_reverse] at h2
  exact (List.dropWhile_sublist _).subset h2

theorem no_semicolon_stripComment (l : List Char) (c : Char)
    (h : c ∈ stripComment l) : c ≠ ';' := by
  have h2 := List.mem_takeWhile_imp h
  simpa using h2

theorem stripComment_cleanLine (raw : List Char) :
    stripComment (cleanLine raw) = cleanLine raw := by
  unfold stripComment
  rw [List.takeWhile_eq_self_iff.mpr]
  intro c hc
  have h1 : c ∈ stripComment raw := mem_pyStrip _ c hc
  simpa using no_semicolon_stripComment raw c h1

theorem cleanLine_idem (raw : List Char) : cleanLine (cleanLine raw) = cleanLine raw := by
  show pyStrip (stripComment (cleanLine raw)) = cleanLine raw
  rw [stripComment_cleanLine raw]
  exact pyStrip_idem _

theorem preprocessGo_good (fs : List Char → Option (List (List Char))) :
    ∀ (lines : List (List Char)) (st st' : PreState),
    (∀ raw ∈ lines, listStartsWith includeDirChars (cleanLine raw) = false ∧
      listStartsWith defineChars (cleanLine raw) = false) →
    st.defines = [] → st.includeStack = [] →
    preprocessGo fs st lines = .ok st' →
    st'.defines = [] ∧ st'.includeStack = [] ∧
    (∀ e ∈ st'.output, e ∈ st.output ∨ goodLine e) := by
  intro lines
  induction lines with
  | nil =>
    intro st st' _ hdef hinc hrun
    simp only [preprocessGo, Except.ok.injEq] at hrun
    subst hrun
    exact ⟨hdef, hinc, fun e he => .inl he⟩
  | cons raw rest ih =>
    intro st st' hex hdef hinc hrun
    have hexr : ∀ r ∈ rest, listStartsWith includeDirChars (cleanLine r) = false ∧
        listStartsWith defineChars (cleanLine r) = false :=
      fun r hr => hex r (List.mem_cons_of_mem _ hr)
    have hexh := hex raw (List.mem_cons_self _ _)
    rw [preprocessGo] at hrun
    dsimp only at hrun
    split at hrun
    · exact ih st st' hexr hdef hinc hrun
    · split at hrun
      · rename_i hc
        rw [hexh.1] at hc
        exact absurd hc (by simp)
      · split at hrun
        · split at hrun
          · rename_i hd0 key heq0
            exact ih ⟨st.defines,
              st.condStack ++ [(assocFind st.defines key).isSome],
              st.processing && (assocFind st.defines key).isSome,
              st.includeStack, st.output⟩ st' hexr hdef hinc hrun
          · exact absurd hrun (by simp)
        · split at hrun
          · split at hrun
            · rename_i hd0 key heq0
              exact ih ⟨st.defines,
                st.condStack ++ [!(assocFind st.defines key).isSome],
                st.processing && !(assocFind st.defines key).isSome,
                st.includeStack, st.output⟩ st' hexr hdef hinc hrun
            · exact absurd hrun (by simp)
          · split at hrun
            · split at hrun
              · exact absurd hrun (by simp)
              · rename_i top heq0
                exact ih ⟨st.defines, st.condStack, !top,
                  st.includeStack, st.output⟩ st' hexr hdef hinc hrun
            · split at hrun
              · split at hrun
                · exact absurd hrun (by simp)
                · exact ih ⟨st.defines, st.condStack.dropLast, true,
                    st.includeStack, st.output⟩ st' hexr hdef hinc hrun
              · split at hrun
                · exact ih st st' hexr hdef hinc hrun
                · split at hrun
                  · rename_i hc
                    rw [hexh.2] at hc
                    exact absurd hc (by simp)
                  · -- emit branch
                    rename_i hne hninc hnifd hnifn hnel hnen hproc hndef
                    have happ : applyDefines st.defines (cleanLine raw) = cleanLine raw := by
                      rw [hdef]
                      rfl
                    rw [happ] at hrun
                    have hres := ih ⟨st.defines, st.condStack, st.processing,
                      st.includeStack, st.output ++ [cleanLine raw]⟩ st' hexr hdef hinc hrun
                    refine ⟨hres.1, hres.2.1, fun e he => ?_⟩
                    rcases hres.2.2 e he with hmem | hgood
                    · rcases List.mem_append.mp hmem with h1 | h1
                      · exact .inl h1
                      · right
                        have heq : e = cleanLine raw := by simpa using h1
                        subst heq
                        refine ⟨cleanLine_idem raw, hne, ?_, ?_, ?_, ?_, ?_, ?_⟩ <;>
                          simp_all
                    · exact .inr hgood

theorem preprocessGo_good_id (fs : List Char → Option (List (List Char))) :
    ∀ (outLines : List (List Char)) (st : PreState),
    (∀ e ∈ outLines, goodLine e) →
    st.defines = [] → st.processing = true →
    preprocessGo fs st outLines =
      .ok ⟨st.defines, st.condStack, st.processing, st.includeStack,
        st.output ++ outLines⟩ := by
  intro outLines
  induction outLines with
  | nil =>
    intro st _ _ _
    simp only [preprocessGo, List.append_nil]
  | cons e rest ih =>
    intro st hgood hdef hproc
    have hg := hgood e (List.mem_cons_self _ _)
    obtain ⟨hclean, hne, hinc, hifd, hifn, hel, hen, hdefn⟩ := hg
    rw [preprocessGo]
    dsimp only
    rw [hclean]
    rw [if_neg hne, if_neg (by simp [hinc]), if_neg (by simp [hifd]),
        if_neg (by simp [hifn]), if_neg (by simp [hel]), if_neg (by simp [hen]),
        if_neg (by simp [hproc]), if_neg (by simp [hdefn])]
    have happ : applyDefines st.defines e = e := by rw [hdef]; rfl
    rw [happ]
    have hrec := ih ⟨st.defines, st.condStack, st.processing, st.includeStack,
      st.output ++ [e]⟩ (fun x hx => hgood x (List.mem_cons_of_mem _ hx)) hdef hproc
    rw [hrec]
    simp

/-- C8 (amended): preprocessing is idempotent for inputs none of whose
(comment-stripped) lines is an `#include` or `.define` directive.  In
general a second application can differ: `#include` inlines the included
file raw (its comments get stripped on the second run), and `.define`
substitution can rewrite a later line into one that starts with a
directive, which the second run then consumes. -/
theorem c8_preprocess_idempotent_without_include_define
    (fs : List Char → Option (List (List Char)))
    (lines out : List (List Char))
    (hex : ∀ raw ∈ lines, listStartsWith includeDirChars (cleanLine raw) = false ∧
      listStartsWith defineChars (cleanLine raw) = false)
    (hrun : preprocess fs lines = .ok out) :
    preprocess fs out = .ok out := by
  unfold preprocess at hrun ⊢
  cases hgo : preprocessGo fs
      { defines := [], condStack := [], processing := true,
        includeStack := [], output := [] } lines with
  | error e => rw [hgo] at hrun; exact absurd hrun (by simp)
  | ok st =>
    rw [hgo] at hrun
    simp only [Except.ok.injEq] at hrun
    have hinv := preprocessGo_good fs lines _ st hex rfl rfl hgo
    have hout : out = st.output := by rw [← hrun, hinv.2.1]; rfl
    have hgoodAll : ∀ e ∈ out, goodLine e := by
      intro e he
      rw [hout] at he
      rcases hinv.2.2 e he with hmem | hgood
      · exact absurd hmem (by simp)
      · exact hgood
    have hrun2 := preprocessGo_good_id fs out
      { defines := [], condStack := [], processing := true,
        includeStack := [], output := [] } hgoodAll rfl rfl
    rw [hrun2]
    simp

/-- C8 counterexample: `.define X .ifdef` followed by `X Y`.  The first run
records the define and emits the substituted line `.ifdef Y`; running the
preprocessor again on that output consumes `.ifdef Y` as a directive and
emits nothing, so the second application does not reproduce its input. -/
theorem c8_preprocess_not_idempotent :
    preprocess (fun _ => none) ([".define X .ifdef", "X Y"].map String.toList) =
      .ok [".ifdef Y".toList] ∧
    preprocess (fun _ => none) [".ifdef Y".toList] = .ok [] ∧
    ([] : List (List Char)) ≠ [".ifdef Y".toList] := ⟨rfl, rfl, by decide⟩

/-- C8 witness: a define-free, include-free input (`NOP ; comment` and an
indented `.org 100`) preprocesses to a fixed point of the preprocessor. -/
theorem c8_preprocess_idempotent_witness :
    preprocess (fun _ => none) (["NOP ; comment", "  .org 100  "].map String.toList) =
      .ok ["NOP".toList, ".org 100".toList] ∧
    preprocess (fun _ => none) ["NOP".toList, ".org 100".toList] =
      .ok ["NOP".toList, ".org 100".toList] := by
  refine ⟨rfl, ?_⟩
  exact c8_preprocess_idempotent_without_include_define (fun _ => none)
    (["NOP ; comment", "  .org 100  "].map String.toList)
    ["NOP".toList, ".org 100".toList]
    (by
      intro raw hraw
      simp only [List.map_cons, List.map_nil, List.mem_cons, List.mem_singleton] at hraw
      rcases hraw with h1 | h1 | h1 <;> first
        | (subst h1; exact ⟨rfl, rfl⟩)
        | exact absurd h1 (by simp)) rfl
